import Mathlib

/-!
# opendex-launcher: a shallow embedding of `core/github.go`, `core/launcher.go`
and `config/config.go`

The Go code is translated function by function.  Everything the program does
to the outside (HTTP round trips, the filesystem, the environment, the child
process) goes through an explicit `World` state and a `Sys` record of
external collaborators, so that every function is a total, executable Lean
function.
-/

namespace regexp

/-! ## The fragment of Go's `regexp` (RE2) syntax used by `ReleaseRef`

Default flags: `s` is off, so `.` does not match a newline; `m` is off, so
`^` and `$` match only at the beginning and at the end of the text.  `\d` is
the Perl class, ASCII `0-9`. -/

/-- Single-character classes. -/
inductive Class where
  /-- `\d` -/
  | digit
  /-- an escaped literal such as `\.` -/
  | lit (c : Char)
  /-- `.` with flag `s` off -/
  | dot
  deriving DecidableEq, Repr

/-- Membership of a character in a class. -/
def Class.test : Class → Char → Bool
  | .digit, c => c.isDigit
  | .lit a, c => c == a
  | .dot, c => c != '\n'

/-- One element of a concatenation: an anchor or a repeated class. -/
inductive Item where
  /-- `^` -/
  | bot
  /-- `$` -/
  | eot
  /-- `x{lo,hi}`; `x*` is `rep x 0 none`, `x{2}` is `rep x 2 (some 2)` -/
  | rep (cls : Class) (lo : Nat) (hi : Option Nat)
  deriving DecidableEq, Repr

/-- A compiled pattern: a concatenation of items. -/
abbrev Regexp := List Item

/-- All remainders of `s` after consuming `k` characters of class `cls`,
for every admissible `k` (`lo ≤ k`, `k ≤ hi`). -/
def repTails (cls : Class) (lo : Nat) (hi : Option Nat) (s : List Char) :
    List (List Char) :=
  match s with
  | [] => if lo = 0 then [[]] else []
  | c :: t =>
    let more :=
      if cls.test c && hi != some 0 then
        repTails cls (lo - 1) (hi.map (· - 1)) t
      else []
    if lo = 0 then (c :: t) :: more else more

/-- Does the pattern match a prefix of `s`?  `atStart` tells whether `s` is
the whole text (no character before it). -/
def matchHere : Regexp → Bool → List Char → Bool
  | [], _, _ => true
  | .bot :: r, atStart, s => atStart && matchHere r atStart s
  | .eot :: r, atStart, s => s.isEmpty && matchHere r atStart s
  | .rep cls lo hi :: r, atStart, s =>
    (repTails cls lo hi s).any fun t =>
      matchHere r (atStart && t.length == s.length) t

/-- Unanchored search: try every start offset. -/
def searchFrom (re : Regexp) : Bool → List Char → Bool
  | atStart, [] => matchHere re atStart []
  | atStart, c :: t => matchHere re atStart (c :: t) || searchFrom re false t

/-- `(*Regexp).Match`: does the text contain any match of the pattern? -/
def Regexp.Match (re : Regexp) (b : String) : Bool :=
  searchFrom re true b.data

end regexp

namespace core

open regexp

/-- `ReleaseRef = regexp.MustCompile("^\d{2}\.\d{2}\.\d{2}.*$")`
(github.go, line 21). -/
def ReleaseRef : Regexp :=
  [ .bot,
    .rep .digit 2 (some 2), .rep (.lit '.') 1 (some 1),
    .rep .digit 2 (some 2), .rep (.lit '.') 1 (some 1),
    .rep .digit 2 (some 2),
    .rep .dot 0 none,
    .eot ]

/-- The release-ref test as the specification words it: two decimal digits, a
dot, two digits, a dot, two digits, then any suffix. -/
def isReleaseRefSpec (branch : String) : Bool :=
  match branch.data with
  | d1 :: d2 :: p1 :: d3 :: d4 :: p2 :: d5 :: d6 :: _ =>
    d1.isDigit && d2.isDigit && p1 == '.' && d3.isDigit && d4.isDigit &&
      p2 == '.' && d5.isDigit && d6.isDigit
  | _ => false

end core

namespace core

/-! ## Errors and results -/

/-- The `errno` values the model of the operating system reports. -/
inductive Errno where
  | ENOENT | ENOTDIR | EEXIST | EISDIR | EACCES | EINVAL | ELOOP
  deriving DecidableEq, Repr

/-- Go `error` values the program creates or inspects. -/
inductive GoError where
  /-- the sentinel `ErrNotFound = errors.New("not found")` (github.go, line 19) -/
  | ErrNotFound
  /-- `errors.New(text)`, `fmt.Errorf` without `%w`, and errors of libraries -/
  | new (text : String)
  /-- `fmt.Errorf(pre + ": %w", inner)` -/
  | wrap (pre : String) (inner : GoError)
  /-- `*os.PathError` / `*os.SyscallError` carrying an errno -/
  | sys (e : Errno)
  /-- `*exec.ExitError` whose `ExitCode()` is `code` -/
  | exitError (code : Int)
  deriving DecidableEq, Repr

/-- `errors.Is(err, ErrNotFound)`: walks the `%w` chain looking for the
sentinel itself (identity, not text). -/
def GoError.isNotFound : GoError → Bool
  | .ErrNotFound => true
  | .wrap _ inner => inner.isNotFound
  | _ => false

/-- `err.Error()`. -/
def GoError.Error : GoError → String
  | .ErrNotFound => "not found"
  | .new text => text
  | .wrap pre inner => pre ++ ": " ++ inner.Error
  | .sys .ENOENT => "no such file or directory"
  | .sys .ENOTDIR => "not a directory"
  | .sys .EEXIST => "file exists"
  | .sys .EISDIR => "is a directory"
  | .sys .EACCES => "permission denied"
  | .sys .EINVAL => "invalid argument"
  | .sys .ELOOP => "too many levels of symbolic links"
  | .exitError code => "exit status " ++ toString code

/-- How a call of a Go function of type `... error` (or `(T, error)`) ends. -/
inductive Res (α : Type) where
  /-- it returned with a nil error -/
  | ok (a : α)
  /-- it returned a non-nil error -/
  | err (e : GoError)
  /-- it called `os.Exit(code)` -/
  | exit (code : Int)
  /-- a run-time panic unwound through it -/
  | panic (what : String)
  deriving DecidableEq, Repr

/-! ## HTTP and JSON -/

/-- An `http.Request`, as far as the program sets it. -/
structure Request where
  method : String
  url : String
  header : List (String × String)
  deriving DecidableEq, Repr

/-- The body stream of a response: the bytes it yields, and the error that
ends the stream when it does not end with EOF. -/
structure Body where
  data : String
  readErr : Option GoError
  deriving DecidableEq, Repr

/-- An `http.Response`. -/
structure Response where
  StatusCode : Int
  Body : Body
  deriving DecidableEq, Repr

/-- `ioutil.ReadAll(resp.Body)`. -/
def Body.ReadAll (b : Body) : Except GoError String :=
  match b.readErr with
  | some e => .error e
  | none => .ok b.data

/-- A value stored in a `map[string]interface{}` by `encoding/json`; only
the dynamic type matters to the program. -/
inductive JVal where
  | null
  | bool (b : Bool)
  | number (n : Int)
  | string (s : String)
  | array
  | object
  deriving DecidableEq, Repr

/-- `Artifact` (github.go, lines 86-90). -/
structure Artifact where
  Name : String
  SizeInBytes : Nat
  ArchiveDownloadUrl : String
  deriving DecidableEq, Repr

/-- `ArtifactList` (github.go, lines 92-95). -/
structure ArtifactList where
  TotalCount : Nat
  Artifacts : List Artifact
  deriving DecidableEq, Repr

/-- `WorkflowRun` (github.go, lines 97-102). -/
structure WorkflowRun where
  Id : Nat
  CreatedAt : String
  HeadBranch : String
  HeadSha : String
  deriving DecidableEq, Repr

/-- `WorkflowRunList` (github.go, lines 104-107). -/
structure WorkflowRunList where
  TotalCount : Nat
  WorkflowRuns : List WorkflowRun
  deriving DecidableEq, Repr

/-- How reading one archive member ends (`f.Open()` then `io.Copy`). -/
inductive ZipData where
  /-- `f.Open()` fails -/
  | openErr (e : GoError)
  /-- the whole content is copied -/
  | data (s : String)
  /-- `s` is copied, then the copy fails (checksum, truncated archive) -/
  | corrupt (s : String) (e : GoError)
  deriving DecidableEq, Repr

/-- One `*zip.File` of an opened archive. -/
structure ZipFile where
  Name : String
  /-- `f.FileInfo().IsDir()` -/
  IsDir : Bool
  /-- `f.Mode()` (permission bits) -/
  Mode : Nat
  content : ZipData
  deriving DecidableEq, Repr

/-- How a started child process ends. -/
inductive ChildStatus where
  | exited (code : Nat)
  | signaled (signal : Nat)
  deriving DecidableEq, Repr

/-! ## The filesystem

Directories, regular files and symbolic links, addressed by places: absolute
paths without links in them (lists of components from the root).  Hard links
are in `World.link`.  There are no permission checks; mode bits are stored as
requested (no umask). -/

/-- A place: an absolute path, every link in it resolved. -/
abbrev Path := List String

/-- A path name handed to the operating system, split into components. -/
structure PathName where
  /-- it starts with a separator -/
  rooted : Bool
  comps : List String
  deriving DecidableEq, Repr

/-- The empty path name. -/
def PathName.isEmpty (pn : PathName) : Bool :=
  !pn.rooted && pn.comps.isEmpty

/-- A directory, a regular file or a symbolic link. -/
inductive Node where
  | dir (mode : Nat)
  | file (mode : Nat) (data : String)
  /-- a symbolic link and the path name it holds -/
  | symlink (target : PathName)
  deriving DecidableEq, Repr

/-- The store of the filesystem: what is kept at each place. -/
abbrev FS := Path → Option Node

/-- Put node `n` at place `p`. -/
def FS.set (fs : FS) (p : Path) (n : Node) : FS :=
  fun q => if q = p then some n else fs q

/-- What the program does to the outside, in order. -/
inductive Event where
  /-- entry into a method of `GitHub`, with its string arguments -/
  | call (fn : String) (args : List String)
  /-- a round trip through `Client.Do` -/
  | http (req : Request)
  /-- `cmd.Run()` of a child -/
  | exec (name : String) (args : List String)
  deriving DecidableEq, Repr

/-- The mutable state of the process and of its surroundings. -/
structure World where
  fs : FS
  /-- hard links: the place where what is at a path is kept; two paths with
  the same `link` are names of one file, and what is at path `p` is
  `fs (link p)`.  Without hard links it is the identity. -/
  link : Path → Path
  /-- the working directory -/
  cwd : Path
  /-- the environment variables -/
  env : List (String × String)
  log : List Event

/-- What is at path `p`. -/
def World.view (w : World) (p : Path) : Option Node :=
  w.fs (w.link p)

/-- Append an event to the log. -/
def World.record (w : World) (e : Event) : World :=
  { w with log := w.log ++ [e] }

/-- The external collaborators: the platform, the HTTP client, the decoders
of `encoding/json` and `archive/zip`, and the child process. -/
structure Sys where
  /-- `runtime.GOOS` -/
  GOOS : String
  /-- `runtime.GOARCH` -/
  GOARCH : String
  /-- the error of `http.NewRequest` for a URL that does not parse -/
  urlErr : String → Option GoError
  /-- `t.Client.Do(req)` -/
  clientDo : Request → Except GoError Response
  /-- `json.NewDecoder(body).Decode(&result)` into a `map[string]interface{}` -/
  decodeMap : Body → Except GoError (List (String × JVal))
  /-- `json.Unmarshal(body, &result)` into a `map[string]interface{}` -/
  unmarshalMap : String → Except GoError (List (String × JVal))
  /-- `json.Unmarshal(body, &result)` into an `ArtifactList`: what `result`
  holds afterwards, and the error -/
  unmarshalArtifactList : String → ArtifactList × Option GoError
  /-- `json.Unmarshal(body, &result)` into a `WorkflowRunList` -/
  unmarshalWorkflowRunList : String → WorkflowRunList × Option GoError
  /-- `zip.OpenReader` on a file with the given content -/
  zipRead : String → Except GoError (List ZipFile)
  /-- how the child started from `name` with `args` ends -/
  child : World → String → List String → ChildStatus

/-- Sequencing: go on with `k` when `r` returned normally, stop otherwise. -/
def andThen {α β : Type} (r : Res α × World)
    (k : α → World → Res β × World) : Res β × World :=
  match r with
  | (.ok a, w) => k a w
  | (.err e, w) => (.err e, w)
  | (.exit c, w) => (.exit c, w)
  | (.panic m, w) => (.panic m, w)

/-- The Go idiom `if err != nil { return fmt.Errorf(pre + ": %w", err) }`. -/
def wrapErr {α : Type} (pre : String) (r : Res α × World) : Res α × World :=
  match r with
  | (.err e, w) => (.err (.wrap pre e), w)
  | other => other

/-- `m[key]` on a `map[string]interface{}`. -/
def mapIndex (m : List (String × JVal)) (key : String) : Option JVal :=
  m.lookup key

/-! ## github.go -/

/-- `GitHub` (github.go, lines 24-28); the client is in `Sys`, the logger is
not modelled. -/
structure GitHub where
  AccessToken : String
  deriving DecidableEq, Repr

/-- `getResponseError` (github.go, lines 38-49). -/
def GitHub.getResponseError (sys : Sys) (resp : Response) : Res Unit :=
  if resp.StatusCode != 200 then
    match sys.decodeMap resp.Body with
    | .error e => .err (.wrap "decode" e)
    | .ok result =>
      -- `result["message"].(string)`
      match mapIndex result "message" with
      | some (.string s) => .err (.new s)
      | _ => .panic "interface conversion: interface \x7b\x7d is not string"
  else .ok ()

/-- `http.NewRequest(method, url, nil)`. -/
def newRequest (sys : Sys) (method url : String) : Except GoError Request :=
  match sys.urlErr url with
  | some e => .error e
  | none => .ok { method := method, url := url, header := [] }

/-- `req.Header.Add(key, value)`. -/
def Request.addHeader (req : Request) (key value : String) : Request :=
  { req with header := req.header ++ [(key, value)] }

/-- `doGet` (github.go, lines 51-70). -/
def GitHub.doGet (sys : Sys) (w : World) (url : String) : Res String × World :=
  match newRequest sys "GET" url with
  | .error e => (.err e, w)
  | .ok req =>
    let req := req.addHeader "Accept" "application/vnd.github.v3+json"
    let w := w.record (.http req)
    match sys.clientDo req with
    | .error e => (.err e, w)
    | .ok resp =>
      match GitHub.getResponseError sys resp with
      | .err e => (.err e, w)
      | .exit c => (.exit c, w)
      | .panic m => (.panic m, w)
      | .ok () =>
        match resp.Body.ReadAll with
        | .error e => (.err e, w)
        | .ok body => (.ok body, w)

/-- The URL of `GetHeadCommit` (github.go, line 73). -/
def commitsUrl (branch : String) : String :=
  "https://api.github.com/repos/opendexnetwork/opendex-docker/commits/" ++ branch

/-- `GetHeadCommit` (github.go, lines 72-84). -/
def GitHub.GetHeadCommit (sys : Sys) (w : World) (branch : String) :
    Res String × World :=
  let w := w.record (.call "GetHeadCommit" [branch])
  andThen (GitHub.doGet sys w (commitsUrl branch)) fun body w =>
    match sys.unmarshalMap body with
    | .error e => (.err e, w)
    | .ok result =>
      -- `result["sha"].(string)`
      match mapIndex result "sha" with
      | some (.string sha) => (.ok sha, w)
      | _ => (.panic "interface conversion: interface \x7b\x7d is not string", w)

/-- The URL of `getDownloadUrl` (github.go, line 110). -/
def artifactsUrl (runId : Nat) : String :=
  "https://api.github.com/repos/opendexnetwork/opendex-docker/actions/runs/" ++
    toString runId ++ "/artifacts"

/-- `getDownloadUrl` (github.go, lines 109-124). -/
def GitHub.getDownloadUrl (sys : Sys) (w : World) (runId : Nat) :
    Res String × World :=
  let w := w.record (.call "getDownloadUrl" [toString runId])
  andThen (GitHub.doGet sys w (artifactsUrl runId)) fun body w =>
    -- the error of `json.Unmarshal` is assigned and never read
    let result := (sys.unmarshalArtifactList body).1
    match result.Artifacts.find? fun artifact => sys.GOOS ++ "-amd64" == artifact.Name with
    | some artifact => (.ok artifact.ArchiveDownloadUrl, w)
    | none => (.err .ErrNotFound, w)

/-- The URL of `getLastRunOfBranch` (github.go, line 127). -/
def runsUrl (branch : String) : String :=
  "https://api.github.com/repos/opendexnetwork/opendex-docker/actions/workflows/build.yml/runs?branch=" ++
    branch

/-- `getLastRunOfBranch` (github.go, lines 126-142). -/
def GitHub.getLastRunOfBranch (sys : Sys) (w : World) (branch commit : String) :
    Res WorkflowRun × World :=
  let w := w.record (.call "getLastRunOfBranch" [branch, commit])
  andThen (GitHub.doGet sys w (runsUrl branch)) fun body w =>
    -- the error of `json.Unmarshal` is assigned and never read
    let result := (sys.unmarshalWorkflowRunList body).1
    match result.WorkflowRuns with
    | [] => (.err .ErrNotFound, w)
    | run :: _ =>
      if run.HeadSha != commit then (.err .ErrNotFound, w)
      else (.ok run, w)

/-- The release asset URL (github.go, line 149). -/
def releaseUrl (sys : Sys) (branch : String) : String :=
  "https://github.com/opendexnetwork/opendex-docker/releases/download/" ++ branch ++
    "/launcher-" ++ sys.GOOS ++ "-" ++ sys.GOARCH ++ ".zip"

/-! ## Path names, `path/filepath` and the `os` package -/

/-- `os.IsPathSeparator`. -/
def isSep (sys : Sys) (c : Char) : Bool :=
  c == '/' || (sys.GOOS == "windows" && c == '\\')

/-- Split at every separator; `"a//b"` has the components `a`, empty, `b`. -/
def splitSep (sep : Char → Bool) : List Char → List String
  | [] => [""]
  | c :: cs =>
    if sep c then "" :: splitSep sep cs
    else
      match splitSep sep cs with
      | h :: t => String.mk (c :: h.data) :: t
      | [] => [String.mk [c]]

/-- A path name as the operating system reads it. -/
def parsePath (sys : Sys) (name : String) : PathName :=
  match name.data with
  | [] => { rooted := false, comps := [] }
  | c :: cs =>
    if isSep sys c then { rooted := true, comps := splitSep (isSep sys) cs }
    else { rooted := false, comps := splitSep (isSep sys) (c :: cs) }

/-- Components that name no new entry: empty, `.` and `..`. -/
def isSpecial (c : String) : Bool :=
  c == "" || c == "." || c == ".."

/-- Where one component leads from `cur`. -/
def lexStep (cur : Path) (c : String) : Path :=
  if c == "" || c == "." then cur
  else if c == ".." then cur.dropLast
  else cur ++ [c]

/-- Where resolution of a path name starts. -/
def World.start (w : World) (pn : PathName) : Path :=
  if pn.rooted then [] else w.cwd

/-- Follow the components from `cur`; every place a component is looked up in
must be a directory.  At a symbolic link the resolution goes on with `follow`
on the link's path name and the components left. -/
def walkWith (fs : FS) (link : Path → Path)
    (follow : Path → List String → Except Errno Path) :
    Path → List String → Except Errno Path
  | cur, [] => .ok cur
  | cur, c :: rest =>
    match fs (link cur) with
    | some (.dir _) =>
      if isSpecial c then walkWith fs link follow (lexStep cur c) rest
      else
        match fs (link (lexStep cur c)) with
        | some (.symlink target) =>
          if target.isEmpty then .error .ENOENT
          else follow (if target.rooted then [] else cur) (target.comps ++ rest)
        | _ => walkWith fs link follow (lexStep cur c) rest
    | some (.file _ _) => .error .ENOTDIR
    | some (.symlink _) => .error .ENOTDIR
    | none => .error .ENOENT

/-- Resolution that may still follow `n` symbolic links, less one. -/
def walkN (fs : FS) (link : Path → Path) : Nat → Path → List String → Except Errno Path
  | 0 => fun _ _ => .error .ELOOP
  | n + 1 => walkWith fs link (walkN fs link n)

/-- Path resolution: the place the components lead to from `cur` (it need not
exist), following at most 40 symbolic links. -/
def walk (fs : FS) (link : Path → Path) : Path → List String → Except Errno Path :=
  walkN fs link 41

/-- One step of `filepath.Clean` over the components kept so far. -/
def cleanStep (rooted : Bool) (out : List String) (c : String) : List String :=
  if c == "" || c == "." then out
  else if c == ".." then
    match out.getLast? with
    | some l => if l == ".." then out ++ [".."] else out.dropLast
    | none => if rooted then out else [".."]
  else out ++ [c]

namespace filepath

/-- `filepath.Clean`. -/
def Clean (pn : PathName) : PathName :=
  let out := pn.comps.foldl (cleanStep pn.rooted) []
  if !pn.rooted && out.isEmpty then { rooted := false, comps := ["."] }
  else { rooted := pn.rooted, comps := out }

/-- `filepath.Dir`: all but the last element, cleaned. -/
def Dir (pn : PathName) : PathName :=
  Clean { pn with comps := pn.comps.dropLast }

/-- `filepath.Join(a, b)` for a non-empty `b`. -/
def Join (sys : Sys) (a b : String) : PathName :=
  if a == "" then Clean (parsePath sys b)
  else
    Clean { rooted := (parsePath sys a).rooted,
            comps := (parsePath sys a).comps ++ splitSep (isSep sys) b.data }

end filepath

namespace os

/-- The place a path name denotes (it need not exist). -/
def lookup (w : World) (pn : PathName) : Except Errno Path :=
  if pn.isEmpty then .error .ENOENT else walk w.fs w.link (w.start pn) pn.comps

/-- `os.Stat`. -/
def Stat (w : World) (pn : PathName) : Except Errno Node :=
  match lookup w pn with
  | .error e => .error e
  | .ok p =>
    match w.view p with
    | some n => .ok n
    | none => .error .ENOENT

/-- The components without trailing separators. -/
def stripTrailing (comps : List String) : List String :=
  (comps.reverse.dropWhile fun c => c == "").reverse

/-- `os.Mkdir`; a symbolic link in the last component is not followed. -/
def Mkdir (w : World) (pn : PathName) (perm : Nat) : Except Errno FS :=
  let comps := stripTrailing pn.comps
  match comps.getLast? with
  | none => .error (if pn.rooted then .EEXIST else .ENOENT)
  | some last =>
    match walk w.fs w.link (w.start pn) comps.dropLast with
    | .error e => .error e
    | .ok parent =>
      match w.view parent with
      | some (.dir _) =>
        if isSpecial last then .error .EEXIST
        else
          match w.view (lexStep parent last) with
          | some _ => .error .EEXIST
          | none => .ok (w.fs.set (w.link (lexStep parent last)) (.dir perm))
      | some _ => .error .ENOTDIR
      | none => .error .ENOENT

/-- The walk of `os.MkdirAll`: make every missing directory on the way.  It is
not atomic: what was made before a failure stays.  A symbolic link on the way
is followed when it leads to something (`os.Stat` succeeds on it); a link that
leads nowhere makes `os.Mkdir` fail with EEXIST. -/
def mkdirAllWalk (link : Path → Path) (perm : Nat) :
    FS → Path → List String → Option Errno × FS
  | fs, cur, [] =>
    match fs (link cur) with
    | some (.dir _) => (none, fs)
    | some (.file _ _) => (some .ENOTDIR, fs)
    | some (.symlink _) => (some .ENOTDIR, fs)
    | none => (some .ENOENT, fs)
  | fs, cur, c :: rest =>
    match fs (link cur) with
    | some (.dir _) =>
      if isSpecial c then mkdirAllWalk link perm fs (lexStep cur c) rest
      else
        match fs (link (lexStep cur c)) with
        | none =>
          mkdirAllWalk link perm (fs.set (link (lexStep cur c)) (.dir perm))
            (lexStep cur c) rest
        | some (.symlink target) =>
          if target.isEmpty then (some .EEXIST, fs)
          else
            match walk fs link (if target.rooted then [] else cur) target.comps with
            | .error _ => (some .EEXIST, fs)
            | .ok d =>
              match fs (link d) with
              | none => (some .EEXIST, fs)
              | some _ => mkdirAllWalk link perm fs d rest
        | some _ => mkdirAllWalk link perm fs (lexStep cur c) rest
    | some (.file _ _) => (some .ENOTDIR, fs)
    | some (.symlink _) => (some .ENOTDIR, fs)
    | none => (some .ENOENT, fs)

/-- `os.MkdirAll`: the error, and the filesystem afterwards. -/
def MkdirAll (w : World) (pn : PathName) (perm : Nat) : Option Errno × FS :=
  if pn.isEmpty then (some .ENOENT, w.fs)
  else mkdirAllWalk w.link perm w.fs (w.start pn) pn.comps

/-- `os.OpenFile(name, O_WRONLY|O_CREATE|O_TRUNC, perm)` (and `os.Create`):
the place where the opened file is kept and the filesystem afterwards.  An
existing file is emptied and keeps its mode; symbolic links are followed, also
in the last component. -/
def OpenFile (w : World) (pn : PathName) (perm : Nat) : Except Errno (Path × FS) :=
  match pn.comps.getLast? with
  | none => .error (if pn.rooted then .EISDIR else .ENOENT)
  | some last =>
    match lookup w pn with
    | .error e => .error e
    | .ok p =>
      if isSpecial last then .error .EISDIR
      else
        match w.view p with
        | some (.dir _) => .error .EISDIR
        | some (.symlink _) => .error .ELOOP
        | some (.file mode _) => .ok (w.link p, w.fs.set (w.link p) (.file mode ""))
        | none => .ok (w.link p, w.fs.set (w.link p) (.file perm ""))

/-- Writing `data` through an open file kept at `p`. -/
def write (fs : FS) (p : Path) (data : String) : FS :=
  match fs p with
  | some (.file mode _) => fs.set p (.file mode data)
  | _ => fs

/-- `os.Chdir`: the new working directory. -/
def Chdir (w : World) (pn : PathName) : Except Errno Path :=
  match lookup w pn with
  | .error e => .error e
  | .ok p =>
    match w.view p with
    | some (.dir _) => .ok p
    | some (.file _ _) => .error .ENOTDIR
    | some (.symlink _) => .error .ENOTDIR
    | none => .error .ENOENT

/-- `os.Chmod`. -/
def Chmod (w : World) (pn : PathName) (mode : Nat) : Except Errno FS :=
  match lookup w pn with
  | .error e => .error e
  | .ok p =>
    match w.view p with
    | some (.dir _) => .ok (w.fs.set (w.link p) (.dir mode))
    | some (.file _ data) => .ok (w.fs.set (w.link p) (.file mode data))
    | some (.symlink _) => .error .ELOOP
    | none => .error .ENOENT

/-- `os.Setenv`: the new environment. -/
def Setenv (w : World) (key value : String) : Except Errno (List (String × String)) :=
  if key == "" || key.data.any (fun c => c == '=' || c == Char.ofNat 0) ||
      value.data.any (fun c => c == Char.ofNat 0) then .error .EINVAL
  else .ok ((key, value) :: w.env.filter fun kv => kv.1 != key)

/-- Starting a child from the file `name` (which holds a separator, so no
search in `PATH`) and waiting for it. -/
def startProcess (sys : Sys) (w : World) (name : String) (args : List String) :
    Except GoError ChildStatus :=
  match Stat w (parsePath sys name) with
  | .error e => .error (.sys e)
  | .ok (.dir _) => .error (.sys .EACCES)
  | .ok (.symlink _) => .error (.sys .ELOOP)
  | .ok (.file mode _) =>
    if sys.GOOS != "windows" && mode &&& 0o111 == 0 then .error (.sys .EACCES)
    else .ok (sys.child w name args)

end os

/-- `FileInfo.Mode()`. -/
def Node.Mode : Node → Nat
  | .dir mode => mode
  | .file mode _ => mode
  | .symlink _ => 0o777

/-! ## github.go, continued -/

/-- `zip.OpenReader(file)`. -/
def zipOpenReader (sys : Sys) (w : World) (file : String) :
    Except GoError (List ZipFile) :=
  match os.Stat w (parsePath sys file) with
  | .error e => .error (.sys e)
  | .ok (.dir _) => .error (.sys .EISDIR)
  | .ok (.symlink _) => .error (.sys .ELOOP)
  | .ok (.file _ data) => sys.zipRead data

/-- The loop of `unzip` (github.go, lines 200-237): the error it returns
with, if any, and the world afterwards. -/
def unzipLoop (sys : Sys) (w : World) : List ZipFile → Option GoError × World
  | [] => (none, w)
  | f :: rest =>
    let fpath := parsePath sys f.Name
    if f.IsDir then
      -- `os.MkdirAll(fpath, os.ModePerm)`, its error dropped; `continue`
      unzipLoop sys { w with fs := (os.MkdirAll w fpath 0o777).2 } rest
    else
      match os.MkdirAll w (filepath.Dir fpath) 0o777 with
      | (some e, fs) => (some (.wrap "mkdir all" (.sys e)), { w with fs := fs })
      | (none, fs) =>
        match os.OpenFile { w with fs := fs } fpath f.Mode with
        | .error e => (some (.wrap "open file" (.sys e)), { w with fs := fs })
        | .ok (outFile, fs) =>
          match f.content with
          | .openErr e => (some (.wrap "open" e), { w with fs := fs })
          | .data s => unzipLoop sys { w with fs := os.write fs outFile s } rest
          | .corrupt s e =>
            (some (.wrap "copy" e), { w with fs := os.write fs outFile s })

/-- `unzip` (github.go, lines 191-239). -/
def GitHub.unzip (sys : Sys) (w : World) (file : String) : Res Unit × World :=
  let w := w.record (.call "unzip" [file])
  match zipOpenReader sys w file with
  | .error e => (.err (.wrap "open reader" e), w)
  | .ok files =>
    match unzipLoop sys w files with
    | (some e, w) => (.err e, w)
    | (none, w) => (.ok (), w)

/-- `downloadFile` (github.go, lines 241-273). -/
def GitHub.downloadFile (sys : Sys) (t : GitHub) (w : World) (url file : String) :
    Res Unit × World :=
  let w := w.record (.call "downloadFile" [url, file])
  match newRequest sys "GET" url with
  | .error e => (.err (.wrap "new request" e), w)
  | .ok req =>
    let req := req.addHeader "Authorization" ("token " ++ t.AccessToken)
    let w := w.record (.http req)
    match sys.clientDo req with
    | .error e => (.err (.wrap "do request" e), w)
    | .ok resp =>
      if resp.StatusCode != 200 then
        match resp.Body.ReadAll with
        | .error e => (.err (.wrap "read all" e), w)
        | .ok body => (.err (.new body), w)
      else
        -- `os.Create(file)`
        match os.OpenFile w (parsePath sys file) 0o666 with
        | .error e => (.err (.wrap "create" (.sys e)), w)
        | .ok (out, fs) =>
          -- `io.Copy(out, resp.Body)`
          let w := { w with fs := os.write fs out resp.Body.data }
          match resp.Body.readErr with
          | some e => (.err (.wrap "copy" e), w)
          | none => (.ok (), w)

/-- The message of github.go, line 154. -/
def noLauncherBuild (branch commit : String) : String :=
  "no launcher build for commit " ++ commit ++ " (The branch \"" ++ branch ++
    "\" does not have a binary launcher)"

/-- `DownloadLatestBinary`, lines 145-164: the URL to download from. -/
def GitHub.chooseUrl (sys : Sys) (w : World) (branch commit : String) :
    Res String × World :=
  if ReleaseRef.Match branch then (.ok (releaseUrl sys branch), w)
  else
    match GitHub.getLastRunOfBranch sys w branch commit with
    | (.err err, w) =>
      if err.isNotFound then (.err (.new (noLauncherBuild branch commit)), w)
      else (.err (.wrap "get last run of branch" err), w)
    | (.exit c, w) => (.exit c, w)
    | (.panic m, w) => (.panic m, w)
    | (.ok run, w) => wrapErr "get download url" (GitHub.getDownloadUrl sys w run.Id)

/-- `DownloadLatestBinary`, lines 166-188: enter the commit directory, download
and unpack. -/
def GitHub.fetchInto (sys : Sys) (t : GitHub) (w : World) (commit url : String) :
    Res Unit × World :=
  let commitDir := parsePath sys commit
  let made : Res Unit × World :=
    -- `if _, err := os.Stat(commit); os.IsNotExist(err)`
    match os.Stat w commitDir with
    | .error .ENOENT =>
      match os.Mkdir w commitDir 0o755 with
      | .error e =>
        (.err (.wrap ("create commit (" ++ commit ++ ") folder") (.sys e)), w)
      | .ok fs => (.ok (), { w with fs := fs })
    | _ => (.ok (), w)
  andThen made fun _ w =>
    match os.Chdir w commitDir with
    | .error e => (.err (.wrap "change directory" (.sys e)), w)
    | .ok cwd =>
      andThen (wrapErr "download"
          (t.downloadFile sys { w with cwd := cwd } url "launcher.zip")) fun _ w =>
        wrapErr "unzip" (GitHub.unzip sys w "launcher.zip")

/-- `DownloadLatestBinary` (github.go, lines 144-189). -/
def GitHub.DownloadLatestBinary (sys : Sys) (t : GitHub) (w : World)
    (branch commit : String) : Res Unit × World :=
  let w := w.record (.call "DownloadLatestBinary" [branch, commit])
  andThen (GitHub.chooseUrl sys w branch commit) fun url w =>
    t.fetchInto sys w commit url

/-! ## launcher.go -/

/-- `Launcher` (launcher.go, lines 15-25), without the logger. -/
structure Launcher where
  homeDir : String
  launcherDir : String
  versionsDir : String
  configFile : String
  GitHub : GitHub
  deriving DecidableEq, Repr

/-- `Start`, lines 97-111: resolve the commit and enter the versions
directory. -/
def Launcher.resolveCommit (sys : Sys) (t : Launcher) (w : World) (branch : String) :
    Res String × World :=
  andThen (wrapErr "git head commit" (GitHub.GetHeadCommit sys w branch)) fun commit w =>
    let versionsDir := parsePath sys t.versionsDir
    let made : Res Unit × World :=
      -- `if _, err := os.Stat(t.versionsDir); err != nil`
      match os.Stat w versionsDir with
      | .ok _ => (.ok (), w)
      | .error _ =>
        match os.Mkdir w versionsDir 0o755 with
        | .error e => (.err (.wrap "mkdir" (.sys e)), w)
        | .ok fs => (.ok (), { w with fs := fs })
    andThen made fun _ w =>
      match os.Chdir w versionsDir with
      | .error e => (.err (.wrap "chdir" (.sys e)), w)
      | .ok cwd => (.ok commit, { w with cwd := cwd })

/-- `commitLauncher` (launcher.go, lines 113-118). -/
def commitLauncher (sys : Sys) (commit : String) : PathName :=
  if sys.GOOS == "windows" then filepath.Join sys commit "launcher.exe"
  else filepath.Join sys commit "launcher"

/-- `Start`, lines 120-128: download on a cache miss, else enter the commit
directory. -/
def Launcher.ensureBinary (sys : Sys) (t : Launcher) (w : World)
    (branch commit : String) : Res Unit × World :=
  -- `if _, err := os.Stat(commitLauncher); os.IsNotExist(err)`
  match os.Stat w (commitLauncher sys commit) with
  | .error .ENOENT =>
    wrapErr "download latest binary"
      (t.GitHub.DownloadLatestBinary sys w branch commit)
  | _ =>
    match os.Chdir w (parsePath sys commit) with
    | .error e => (.err (.wrap "chdir" (.sys e)), w)
    | .ok cwd => (.ok (), { w with cwd := cwd })

/-- `Start`, lines 130-136. -/
def Launcher.setNetworkEnv (w : World) (network networkDir : String) :
    Res Unit × World :=
  match os.Setenv w "NETWORK" network with
  | .error e => (.err (.wrap "setenv" (.sys e)), w)
  | .ok env =>
    match os.Setenv { w with env := env } "NETWORK_DIR" networkDir with
    | .error e => (.err (.wrap "setenv" (.sys e)), { w with env := env })
    | .ok env => (.ok (), { w with env := env })

/-- `launcher` (launcher.go, lines 138-144). -/
def launcherName (sys : Sys) : String :=
  if sys.GOOS == "windows" then ".\\launcher.exe" else "./launcher"

/-- `Start`, lines 146-156: the executable-bit check. -/
def Launcher.ensureExecutable (sys : Sys) (w : World) : Res String × World :=
  if sys.GOOS != "windows" then
    -- `info, _ := os.Stat(launcher)`; `mode := info.Mode()`
    match os.Stat w (parsePath sys (launcherName sys)) with
    | .error _ => (.panic "invalid memory address or nil pointer dereference", w)
    | .ok info =>
      if info.Mode &&& 0o100 == 0 then
        match os.Chmod w (parsePath sys (launcherName sys)) 0o755 with
        | .error e => (.err (.wrap "chmod" (.sys e)), w)
        | .ok fs => (.ok (launcherName sys), { w with fs := fs })
      else (.ok (launcherName sys), w)
  else (.ok (launcherName sys), w)

/-- `Run` (launcher.go, lines 87-94). -/
def Launcher.Run (sys : Sys) (w : World) (name : String) (args : List String) :
    Res Unit × World :=
  let w := w.record (.exec name args)
  match os.startProcess sys w name args with
  | .error e => (.err e, w)
  | .ok (.exited code) =>
    if code = 0 then (.ok (), w) else (.err (.exitError code), w)
  | .ok (.signaled _) => (.err (.exitError (-1)), w)

/-- `Start`, lines 158-165: run the child and pass its exit code on. -/
def Launcher.runLauncher (sys : Sys) (w : World) (launcher : String)
    (args : List String) : Res Unit × World :=
  match args with
  | [] => (.panic "slice bounds out of range [1:0]", w)
  | _ :: rest =>
    match Launcher.Run sys w launcher rest with
    | (.err (.exitError code), w) => (.exit code, w)
    | (.err e, w) => (.err (.wrap "run" e), w)
    | other => other

/-- `Start`, lines 97-156: everything before the child is run; the name of
the binary to run. -/
def Launcher.prepare (sys : Sys) (t : Launcher) (w : World)
    (branch network networkDir : String) : Res String × World :=
  andThen (t.resolveCommit sys w branch) fun commit w =>
  andThen (t.ensureBinary sys w branch commit) fun _ w =>
  andThen (Launcher.setNetworkEnv w network networkDir) fun _ w =>
  Launcher.ensureExecutable sys w

/-- `Start` (launcher.go, lines 96-166). -/
def Launcher.Start (sys : Sys) (t : Launcher) (w : World)
    (branch network networkDir : String) (args : List String) : Res Unit × World :=
  andThen (t.prepare sys w branch network networkDir) fun launcher w =>
  Launcher.runLauncher sys w launcher args

/-- `main` (main.go, lines 29-33), once the launcher is set up: the exit code
of the process (an uncaught panic ends a Go program with status 2). -/
def mainExit (sys : Sys) (t : Launcher) (w : World)
    (branch network networkDir : String) (args : List String) : Int :=
  match (t.Start sys w branch network networkDir args).1 with
  | .ok () => 0
  | .err _ => 1
  | .exit code => code
  | .panic _ => 2

/-- The places the components name on the way from `cur`: one for every
component other than the empty one, `.` and `..`. -/
def regTrail : Path → List String → List Path
  | _, [] => []
  | cur, c :: rest =>
    (if isSpecial c then [] else [lexStep cur c]) ++ regTrail (lexStep cur c) rest

/-- The places that the name of an archive member and its parent directories
denote, for a process whose working directory is `cwd`. -/
def entryPlaces (sys : Sys) (cwd : Path) (f : ZipFile) : List Path :=
  regTrail (if (parsePath sys f.Name).rooted then [] else cwd) (parsePath sys f.Name).comps

/-- The places of all members of the archive in `file` (none when it cannot
be opened). -/
def archivePlaces (sys : Sys) (w : World) (file : String) : List Path :=
  match zipOpenReader sys w file with
  | .ok files => files.flatMap (entryPlaces sys w.cwd)
  | .error _ => []

/-- A symbolic link. -/
def Node.isSymlink : Node → Bool
  | .symlink _ => true
  | _ => false

/-- A symbolic link is kept at `x`. -/
def isSymlinkAt (fs : FS) (x : Path) : Bool :=
  match fs x with
  | some n => n.isSymlink
  | none => false

/-- None of the places is a symbolic link. -/
def NoSymlink (fs : FS) (link : Path → Path) (places : List Path) : Prop :=
  ∀ q ∈ places, isSymlinkAt fs (link q) = false

/-- From `fs` to `fs2` no symbolic link was made. -/
def Keeps (fs fs2 : FS) : Prop :=
  ∀ x, isSymlinkAt fs2 x = true → isSymlinkAt fs x = true

/-- From `w` to `w2` the log only grew, and only by events satisfying `P`. -/
def Emits (P : Event → Prop) (w w2 : World) : Prop :=
  ∃ delta, w2.log = w.log ++ delta ∧ ∀ e ∈ delta, P e

/-! ## Sample surroundings

A Linux machine, a repository whose head commit is `abc123`, a release
`21.02.02` whose archive holds only `a/b.txt`, and a branch `master` whose
latest CI run was made for another commit. -/

namespace demo

/-- The bodies the sample server answers with. -/
def shaBody : String := "\x7b\"sha\":\"abc123\"\x7d"

/-- The body of a "not found" answer of the API. -/
def notFoundBody : String := "\x7b\"message\":\"Not Found\"\x7d"

/-- The run list of branch `master`. -/
def runsBody : String :=
  "\x7b\"total_count\":1,\"workflow_runs\":[\x7b\"id\":5,\"head_branch\":\"master\",\"head_sha\":\"def456\"\x7d]\x7d"

/-- The artifact list of run 5. -/
def artifactsBody : String :=
  "\x7b\"total_count\":4,\"artifacts\":[\x7b\"name\":\"linux-amd64-debug\"\x7d,\x7b\"name\":\"Linux-amd64\"\x7d,\x7b\"name\":\"linux-amd64\"\x7d,\x7b\"name\":\"linux-amd64\"\x7d]\x7d"

/-- The sample HTTP server. -/
def server (req : Request) : Except GoError Response :=
  if req.url == "https://api.github.com/repos/opendexnetwork/opendex-docker/commits/21.02.02" then
    .ok ⟨200, ⟨shaBody, none⟩⟩
  else if req.url == "https://api.github.com/repos/opendexnetwork/opendex-docker/commits/master" then
    .ok ⟨200, ⟨shaBody, none⟩⟩
  else if req.url == "https://api.github.com/repos/opendexnetwork/opendex-docker/actions/workflows/build.yml/runs?branch=master" then
    .ok ⟨200, ⟨runsBody, none⟩⟩
  else if req.url == "https://api.github.com/repos/opendexnetwork/opendex-docker/actions/runs/5/artifacts" then
    .ok ⟨200, ⟨artifactsBody, none⟩⟩
  else if req.url == "https://github.com/opendexnetwork/opendex-docker/releases/download/21.02.02/launcher-linux-amd64.zip" then
    .ok ⟨200, ⟨"PK a/b.txt", none⟩⟩
  else .ok ⟨404, ⟨notFoundBody, none⟩⟩

/-- What `encoding/json` makes of the sample bodies as a map. -/
def jsonMap (s : String) : Except GoError (List (String × JVal)) :=
  if s == shaBody then .ok [("sha", .string "abc123")]
  else if s == notFoundBody then .ok [("message", .string "Not Found")]
  else if s == "\x7b\x7d" then .ok []
  else if s == "" then .error (.new "EOF")
  else .error (.new "invalid character")

/-- The sample collaborators. -/
def sys : Sys where
  GOOS := "linux"
  GOARCH := "amd64"
  urlErr := fun _ => none
  clientDo := server
  decodeMap := fun b => jsonMap b.data
  unmarshalMap := jsonMap
  unmarshalArtifactList := fun s =>
    if s == artifactsBody then
      (⟨4, [⟨"linux-amd64-debug", 0, "u1"⟩, ⟨"Linux-amd64", 0, "u2"⟩,
            ⟨"linux-amd64", 0, "u3"⟩, ⟨"linux-amd64", 0, "u4"⟩]⟩, none)
    else (⟨0, []⟩, some (.new "invalid character"))
  unmarshalWorkflowRunList := fun s =>
    if s == runsBody then (⟨1, [⟨5, "", "master", "def456"⟩]⟩, none)
    else (⟨0, []⟩, some (.new "invalid character"))
  zipRead := fun s =>
    if s == "PK a/b.txt" then .ok [⟨"a/b.txt", false, 0o644, .data "hello"⟩]
    else .error (.new "zip: not a valid zip file")
  child := fun _ _ _ => .exited 7

/-- The sample launcher. -/
def launcher : Launcher :=
  { homeDir := "/home", launcherDir := "/home/launcher",
    versionsDir := "/home/launcher/versions",
    configFile := "/home/opendexd-docker.conf", GitHub := { AccessToken := "tok" } }

/-- A fresh installation: an empty versions directory. -/
def freshFS : FS := fun p =>
  if p = [] then some (.dir 0o755)
  else if p = ["home"] then some (.dir 0o755)
  else if p = ["home", "launcher"] then some (.dir 0o755)
  else if p = ["home", "launcher", "versions"] then some (.dir 0o755)
  else if p = ["home", "launcher", "other.txt"] then some (.file 0o600 "keep")
  else none

/-- A regular file sits where the commit directory should be. -/
def blockedFS : FS :=
  freshFS.set ["home", "launcher", "versions", "abc123"] (.file 0o644 "")

/-- The binary of commit `abc123` is cached, without its executable bit. -/
def cachedFS : FS :=
  (freshFS.set ["home", "launcher", "versions", "abc123"] (.dir 0o755)).set
    ["home", "launcher", "versions", "abc123", "launcher"] (.file 0o644 "ELF")

/-- A downloaded archive lies in the launcher directory. -/
def zipFS : FS :=
  freshFS.set ["home", "launcher", "launcher.zip"] (.file 0o644 "PK a/b.txt")

/-- The process right after `NewLauncher`. -/
def world (fs : FS) : World :=
  { fs := fs, link := fun p => p, cwd := ["home", "launcher"], env := [], log := [] }

/-- In the launcher directory `a` is a symbolic link to `../other`. -/
def symlinkFS : FS :=
  ((zipFS.set ["home", "other"] (.dir 0o755)).set ["home", "launcher", "a"]
    (.symlink { rooted := false, comps := ["..", "other"] }))

/-- In the launcher directory `a/b.txt` is a second name (a hard link) of the
file `other.txt`. -/
def hardlinkWorld : World :=
  { fs := zipFS.set ["home", "launcher", "a"] (.dir 0o755),
    link := fun p =>
      if p = ["home", "launcher", "a", "b.txt"] then ["home", "launcher", "other.txt"] else p,
    cwd := ["home", "launcher"], env := [], log := [] }

end demo

end core

namespace config

open core

/-! ## config.go -/

/-- `GitHub` (config.go, lines 10-12). -/
structure GitHub where
  /-- tagged `toml:"access-token"` -/
  AccessToken : String
  deriving DecidableEq, Repr

/-- `Config` (config.go, lines 14-19). -/
structure Config where
  GitHub : GitHub
  /-- tagged `toml:"simnet-dir"` -/
  SimnetDir : String
  /-- tagged `toml:"testnet-dir"` -/
  TestnetDir : String
  /-- tagged `toml:"mainnet-dir"` -/
  MainnetDir : String
  deriving DecidableEq, Repr

/-- A value of a loaded TOML document. -/
inductive Toml where
  | string (s : String)
  | integer (n : Int)
  | boolean (b : Bool)
  | table (entries : List (String × Toml))
  | other

/-- The keys go-toml tries for a struct field named (or tagged) `name`:
the name itself, lower case, upper case, first letter lowered. -/
def keysToTry (name : String) : List String :=
  [name, String.mk (name.data.map Char.toLower), String.mk (name.data.map Char.toUpper),
    match name.data with
    | [] => ""
    | c :: cs => String.mk (c.toLower :: cs)]

/-- The value a struct field is filled from, if any. -/
def fieldValue (tree : List (String × Toml)) (name : String) : Option Toml :=
  (keysToTry name).findSome? fun key => tree.lookup key

/-- Filling a `string` field: absent keys leave the zero value. -/
def stringField (tree : List (String × Toml)) (name : String) : Except GoError String :=
  match fieldValue tree name with
  | none => .ok ""
  | some (.string s) => .ok s
  | some _ => .error (.new ("Can't convert to string: " ++ name))

/-- Filling the struct `GitHub` from a table. -/
def unmarshalGitHub (tree : List (String × Toml)) : Except GoError GitHub :=
  match stringField tree "access-token" with
  | .error e => .error e
  | .ok token => .ok { AccessToken := token }

/-- Filling the struct `Config` from the document, field by field. -/
def unmarshalConfig (tree : List (String × Toml)) : Except GoError Config :=
  let github : Except GoError GitHub :=
    match fieldValue tree "GitHub" with
    | none => .ok { AccessToken := "" }
    | some (.table entries) => unmarshalGitHub entries
    | some _ => .error (.new "Can't convert to struct: GitHub")
  match github with
  | .error e => .error e
  | .ok gh =>
    match stringField tree "simnet-dir" with
    | .error e => .error e
    | .ok simnet =>
      match stringField tree "testnet-dir" with
      | .error e => .error e
      | .ok testnet =>
        match stringField tree "mainnet-dir" with
        | .error e => .error e
        | .ok mainnet =>
          .ok { GitHub := gh, SimnetDir := simnet, TestnetDir := testnet,
                MainnetDir := mainnet }

/-- `toml.Unmarshal(data, &config)`; `load` is the parser of the TOML syntax. -/
def tomlUnmarshal (load : String → Except GoError (List (String × Toml)))
    (data : String) : Except GoError Config :=
  match load data with
  | .error e => .error e
  | .ok tree => unmarshalConfig tree

/-- `ParseConfig` (config.go, lines 21-32); the reader is a stream as in
`core.Body`. -/
def ParseConfig (load : String → Except GoError (List (String × Toml)))
    (reader : Body) : Except GoError Config :=
  match reader.ReadAll with
  | .error e => .error (.wrap "read file" e)
  | .ok data =>
    match tomlUnmarshal load data with
    | .error e => .error (.wrap "unmarshal" e)
    | .ok config => .ok config

/-- The document of `Test1` (config_test.go, lines 10-13). -/
def test1Document : String := "\n[GitHub]\naccess-token = \"abc123\"\n"

/-- A parser that knows the document of `Test1`. -/
def test1Load (data : String) : Except GoError (List (String × Toml)) :=
  if data == test1Document then .ok [("GitHub", .table [("access-token", .string "abc123")])]
  else .error (.new "parsing error")

end config

/-! # Theorems -/

namespace regexp

/-! ### Facts about the matcher -/

theorem repTails_one (cls : Class) (s : List Char) :
    repTails cls 1 (some 1) s =
      match s with
      | [] => []
      | c :: t => if cls.test c then [t] else [] := by
  cases s with
  | nil => simp [repTails]
  | cons c t =>
    cases t with
    | nil => by_cases h : cls.test c <;> simp [repTails, h]
    | cons d u => by_cases h : cls.test c <;> simp [repTails, h]

theorem repTails_two (cls : Class) (s : List Char) :
    repTails cls 2 (some 2) s =
      match s with
      | c :: d :: t => if cls.test c && cls.test d then [t] else []
      | _ => [] := by
  match s with
  | [] => simp [repTails]
  | [c] => by_cases h : cls.test c <;> simp [repTails, h]
  | c :: d :: t =>
    have h1 := repTails_one cls (d :: t)
    by_cases h : cls.test c <;> by_cases h' : cls.test d <;>
      (simp [repTails, h, h'] <;> simp [repTails, h'] at h1 <;> simp [h1])

theorem nil_mem_repTails_star (cls : Class) (s : List Char) :
    [] ∈ repTails cls 0 none s ↔ ∀ c ∈ s, cls.test c = true := by
  induction s with
  | nil => simp [repTails]
  | cons c t ih =>
    by_cases h : cls.test c
    · simp [repTails, h, ih]
    · simp [repTails, h]

theorem any_isEmpty_iff (l : List (List Char)) :
    (l.any fun t => t.isEmpty) = true ↔ [] ∈ l := by
  induction l with
  | nil => simp
  | cons a l ih =>
    cases a <;> simp [ih]

theorem searchFrom_bot_false (r : Regexp) (s : List Char) :
    searchFrom (.bot :: r) false s = false := by
  induction s with
  | nil => simp [searchFrom, matchHere]
  | cons c t ih => simp [searchFrom, matchHere, ih]

theorem Match_bot (r : Regexp) (b : String) :
    Regexp.Match (.bot :: r) b = matchHere r true b.data := by
  unfold Regexp.Match
  cases b.data with
  | nil => simp [searchFrom, matchHere]
  | cons c t => simp [searchFrom, matchHere, searchFrom_bot_false]

theorem length_beq_succ (n k : Nat) : (n == n + (k + 1)) = false := by
  simp

theorem matchHere_rep_one (cls : Class) (r : Regexp) (a : Bool) (s : List Char) :
    matchHere (.rep cls 1 (some 1) :: r) a s =
      match s with
      | [] => false
      | c :: t => cls.test c && matchHere r false t := by
  cases s with
  | nil => simp [matchHere, repTails_one]
  | cons c t =>
    by_cases h : cls.test c <;> simp [matchHere, repTails_one, h, length_beq_succ]

theorem matchHere_rep_two (cls : Class) (r : Regexp) (a : Bool) (s : List Char) :
    matchHere (.rep cls 2 (some 2) :: r) a s =
      match s with
      | c :: d :: t => cls.test c && cls.test d && matchHere r false t
      | _ => false := by
  match s with
  | [] => simp [matchHere, repTails_two]
  | [c] => simp [matchHere, repTails_two]
  | c :: d :: t =>
    by_cases h : cls.test c <;> by_cases h' : cls.test d <;>
      simp [matchHere, repTails_two, h, h', Nat.add_assoc, length_beq_succ]

theorem matchHere_star_eot (cls : Class) (a : Bool) (s : List Char) :
    matchHere [.rep cls 0 none, .eot] a s = s.all cls.test := by
  have h : (matchHere [.rep cls 0 none, .eot] a s = true) ↔ (s.all cls.test = true) := by
    simp only [matchHere, Bool.and_true]
    rw [any_isEmpty_iff, nil_mem_repTails_star]
    simp
  cases h1 : matchHere [.rep cls 0 none, .eot] a s <;> cases h2 : s.all cls.test <;> simp_all

end regexp

namespace core

open regexp

/-- What `ReleaseRef.Match` computes: the date prefix, then a suffix without
a newline. -/
theorem ReleaseRef_Match_eq (branch : String) :
    ReleaseRef.Match branch =
      (isReleaseRefSpec branch && (branch.data.drop 8).all fun c => c != '\n') := by
  unfold ReleaseRef
  rw [Match_bot]
  unfold isReleaseRefSpec
  simp only [matchHere_rep_one, matchHere_rep_two, matchHere_star_eot]
  rcases branch.data with _ | ⟨d1, _ | ⟨d2, _ | ⟨p1, _ | ⟨d3, _ | ⟨d4, _ | ⟨p2, _ | ⟨d5, _ | ⟨d6, rest⟩⟩⟩⟩⟩⟩⟩⟩ <;>
    simp [Class.test, Bool.and_assoc]
  rfl

/-- C3 (as amended): for every branch string, `ReleaseRef.Match` is true
exactly when the branch starts with two digits, a dot, two digits, a dot, two
digits and the rest of it holds no newline character; "21.02.02" and
"21.02.02-rc1" are release refs, "master", "1.02.02" and "v21.02.02" are not. -/
theorem ReleaseRef_Match_iff :
    (∀ branch : String,
      ReleaseRef.Match branch = true ↔
        ∃ d1 d2 d3 d4 d5 d6 : Char, ∃ rest : List Char,
          branch.data = d1 :: d2 :: '.' :: d3 :: d4 :: '.' :: d5 :: d6 :: rest ∧
          d1.isDigit = true ∧ d2.isDigit = true ∧ d3.isDigit = true ∧
          d4.isDigit = true ∧ d5.isDigit = true ∧ d6.isDigit = true ∧
          '\n' ∉ rest) ∧
    ReleaseRef.Match "21.02.02" = true ∧
    ReleaseRef.Match "21.02.02-rc1" = true ∧
    ReleaseRef.Match "master" = false ∧
    ReleaseRef.Match "1.02.02" = false ∧
    ReleaseRef.Match "v21.02.02" = false := by
  refine ⟨?_, by decide, by decide, by decide, by decide, by decide⟩
  intro branch
  rw [ReleaseRef_Match_eq]
  unfold isReleaseRefSpec
  constructor
  · intro h
    rcases hb : branch.data with _ | ⟨d1, _ | ⟨d2, _ | ⟨p1, _ | ⟨d3, _ | ⟨d4, _ | ⟨p2, _ | ⟨d5, _ | ⟨d6, rest⟩⟩⟩⟩⟩⟩⟩⟩ <;>
      rw [hb] at h <;> simp at h
    obtain ⟨⟨⟨⟨⟨⟨⟨⟨h1, h2⟩, h3⟩, h4⟩, h5⟩, h6⟩, h7⟩, h8⟩, h9⟩ := h
    subst h3 h6
    refine ⟨d1, d2, d3, d4, d5, d6, rest, rfl, h1, h2, h4, h5, h7, h8, ?_⟩
    intro hm
    exact h9 _ hm rfl
  · rintro ⟨d1, d2, d3, d4, d5, d6, rest, hb, h1, h2, h3, h4, h5, h6, hn⟩
    rw [hb]
    simp [h1, h2, h3, h4, h5, h6]
    intro c hc hcn
    exact hn (hcn ▸ hc)

/-- C3 (as stated) fails: "21.02.02" followed by a newline has the date
prefix and a suffix, yet `ReleaseRef.Match` rejects it. -/
theorem ReleaseRef_Match_newline_counterexample :
    isReleaseRefSpec "21.02.02\n" = true ∧ ReleaseRef.Match "21.02.02\n" = false := by
  decide

end core

namespace core

/-! ### Sequencing -/

theorem andThen_ok {α β : Type} (r : Res α × World) (k : α → World → Res β × World)
    (a : α) (h : r.1 = .ok a) : andThen r k = k a r.2 := by
  rcases r with ⟨r1, w⟩
  simp only at h
  subst h
  rfl

theorem andThen_of_eq {α β : Type} (r : Res α × World)
    (k : α → World → Res β × World) (a : α) (w : World) (h : r = (.ok a, w)) :
    andThen r k = k a w := by
  subst h
  rfl

theorem wrapErr_snd {α : Type} (pre : String) (r : Res α × World) :
    (wrapErr pre r).2 = r.2 := by
  rcases r with ⟨r1, w⟩
  cases r1 <;> rfl

theorem wrapErr_ok {α : Type} (pre : String) (a : α) (w : World) :
    wrapErr pre ((.ok a, w) : Res α × World) = (.ok a, w) := rfl

/-! ### `getResponseError` and `doGet` -/

/-- The request `doGet` sends. -/
theorem doGet_ok_eq (sys : Sys) (w : World) (url body : String)
    (h : (GitHub.doGet sys w url).1 = .ok body) (w' : World) :
    GitHub.doGet sys w' url =
      (.ok body, w'.record (.http ⟨"GET", url,
        [("Accept", "application/vnd.github.v3+json")]⟩)) := by
  unfold GitHub.doGet newRequest at h ⊢
  cases hu : sys.urlErr url with
  | some e => simp [hu] at h
  | none =>
    simp only [hu, Request.addHeader, List.nil_append] at h ⊢
    cases hc : sys.clientDo ⟨"GET", url, [("Accept", "application/vnd.github.v3+json")]⟩ with
    | error e => simp [hc] at h
    | ok resp =>
      simp only [hc] at h ⊢
      cases hr : GitHub.getResponseError sys resp with
      | err e => simp [hr] at h
      | exit c => simp [hr] at h
      | panic m => simp [hr] at h
      | ok u =>
        simp only [hr] at h ⊢
        cases hb : resp.Body.ReadAll with
        | error e => simp [hb] at h
        | ok b =>
          simp only [hb] at h ⊢
          cases h
          rfl

/-- C7 (as amended): `getResponseError` returns no error exactly when the
status code is 200.  For any other status it returns the decode error,
wrapped as "decode: ...", when the body does not decode into a JSON object,
and the error whose text is the "message" field when the body decodes into an
object whose "message" is a string. -/
theorem getResponseError_spec (sys : Sys) (resp : Response) :
    (GitHub.getResponseError sys resp = .ok () ↔ resp.StatusCode = 200) ∧
    (∀ e, resp.StatusCode ≠ 200 → sys.decodeMap resp.Body = .error e →
      GitHub.getResponseError sys resp = .err (.wrap "decode" e)) ∧
    (∀ m s, resp.StatusCode ≠ 200 → sys.decodeMap resp.Body = .ok m →
      mapIndex m "message" = some (.string s) →
      GitHub.getResponseError sys resp = .err (.new s) ∧ (GoError.new s).Error = s) := by
  refine ⟨?_, ?_, ?_⟩
  · unfold GitHub.getResponseError
    by_cases hs : resp.StatusCode = 200
    · simp [hs]
    · simp only [bne_iff_ne, ne_eq, hs, not_false_eq_true, if_true, iff_false]
      cases sys.decodeMap resp.Body with
      | error e => simp
      | ok m =>
        simp only
        split <;> simp
  · intro e hs hd
    simp [GitHub.getResponseError, hs, hd]
  · intro m s hs hd hm
    simp [GitHub.getResponseError, hs, hd, hm, GoError.Error]

/-- Witness of C7: a 404 answer carrying the API's "Not Found" message. -/
theorem getResponseError_spec_witness :
    GitHub.getResponseError demo.sys ⟨404, ⟨demo.notFoundBody, none⟩⟩ =
      .err (.new "Not Found") :=
  ((getResponseError_spec demo.sys ⟨404, ⟨demo.notFoundBody, none⟩⟩).2.2
    [("message", .string "Not Found")] "Not Found" (by decide) rfl (by decide)).1

/-- C7 (as stated) fails: a 204 answer has a 2xx status, yet
`getResponseError` returns an error. -/
theorem getResponseError_2xx_counterexample :
    (200 ≤ (204 : Int) ∧ (204 : Int) < 300) ∧
    GitHub.getResponseError demo.sys ⟨204, ⟨"", none⟩⟩ =
      .err (.wrap "decode" (.new "EOF")) := by
  decide

/-- A body that is a JSON object without a "message" makes the type assertion
of github.go, line 46 panic. -/
theorem getResponseError_no_message_panics :
    GitHub.getResponseError demo.sys ⟨404, ⟨"\x7b\x7d", none⟩⟩ =
      .panic "interface conversion: interface \x7b\x7d is not string" := by
  decide

/-! ### `getDownloadUrl` -/

theorem first_split_unique {α : Type} (p : α → Prop) (l1 l2 : List α) (a1 a2 : α)
    (r1 r2 : List α) (h : l1 ++ a1 :: r1 = l2 ++ a2 :: r2) (h1 : p a1) (h2 : p a2)
    (n1 : ∀ b ∈ l1, ¬ p b) (n2 : ∀ b ∈ l2, ¬ p b) : a1 = a2 := by
  induction l1 generalizing l2 with
  | nil =>
    cases l2 with
    | nil =>
      simp at h
      exact h.1
    | cons c cs =>
      simp at h
      exact absurd (h.1 ▸ h1) (n2 c (by simp))
  | cons c cs ih =>
    cases l2 with
    | nil =>
      simp at h
      exact absurd (h.1 ▸ h2) (n1 c (by simp))
    | cons c' cs' =>
      simp at h
      exact ih cs' h.2 (fun b hb => n1 b (by simp [hb])) (fun b hb => n2 b (by simp [hb]))

/-- C4: when the artifact list of the run is returned, `getDownloadUrl`
returns the download URL of the first artifact whose name equals
`GOOS + "-amd64"`, and fails with `ErrNotFound` exactly when no artifact has
that name; it ends in one of these two ways. -/
theorem getDownloadUrl_spec (sys : Sys) (w : World) (runId : Nat) (body : String)
    (h : (GitHub.doGet sys w (artifactsUrl runId)).1 = .ok body) :
    (∀ url, (GitHub.getDownloadUrl sys w runId).1 = .ok url ↔
      ∃ before a after,
        (sys.unmarshalArtifactList body).1.Artifacts = before ++ a :: after ∧
        a.Name = sys.GOOS ++ "-amd64" ∧
        (∀ b ∈ before, b.Name ≠ sys.GOOS ++ "-amd64") ∧
        url = a.ArchiveDownloadUrl) ∧
    ((GitHub.getDownloadUrl sys w runId).1 = .err .ErrNotFound ↔
      ∀ a ∈ (sys.unmarshalArtifactList body).1.Artifacts,
        a.Name ≠ sys.GOOS ++ "-amd64") ∧
    ((∃ url, (GitHub.getDownloadUrl sys w runId).1 = .ok url) ∨
      (GitHub.getDownloadUrl sys w runId).1 = .err .ErrNotFound) := by
  have hg := doGet_ok_eq sys w _ body h
  unfold GitHub.getDownloadUrl
  simp only [hg, andThen]
  cases hf : (sys.unmarshalArtifactList body).1.Artifacts.find?
      (fun artifact => sys.GOOS ++ "-amd64" == artifact.Name) with
  | none =>
    simp only [hf]
    rw [List.find?_eq_none] at hf
    refine ⟨?_, ?_, ?_⟩
    · intro url
      constructor
      · intro h'
        cases h'
      · rintro ⟨before, a, after, hl, hn, -, -⟩
        have := hf a (by rw [hl]; simp)
        simp [hn] at this
    · simp only [true_iff]
      intro a ha hn
      have := hf a ha
      simp [hn] at this
    · simp
  | some a =>
    simp only [hf]
    rw [List.find?_eq_some] at hf
    obtain ⟨hp, before, after, hl, hb⟩ := hf
    have hname : a.Name = sys.GOOS ++ "-amd64" := by
      simpa using (beq_iff_eq.mp hp).symm
    have hbefore : ∀ b ∈ before, b.Name ≠ sys.GOOS ++ "-amd64" := by
      intro b hb' hn
      have := hb b hb'
      simp [hn] at this
    refine ⟨?_, ?_, ?_⟩
    · intro url
      constructor
      · intro h'
        cases h'
        exact ⟨before, a, after, hl, hname, hbefore, rfl⟩
      · rintro ⟨before', a', after', hl', hn', hb', rfl⟩
        rw [hl] at hl'
        have hkey : a = a' :=
          first_split_unique (fun b : Artifact => b.Name = sys.GOOS ++ "-amd64")
            before before' a a' after after' hl' hname hn' hbefore hb'
        rw [hkey]
    · constructor
      · intro h'
        cases h'
      · intro hall
        exact absurd hname (hall a (by rw [hl]; simp))
    · exact Or.inl ⟨_, rfl⟩

/-- Witness of C4: of the artifacts `linux-amd64-debug`, `Linux-amd64`,
`linux-amd64`, `linux-amd64` the third is taken. -/
theorem getDownloadUrl_spec_witness :
    (GitHub.getDownloadUrl demo.sys (demo.world demo.freshFS) 5).1 = .ok "u3" :=
  ((getDownloadUrl_spec demo.sys (demo.world demo.freshFS) 5 demo.artifactsBody
      (by decide)).1 "u3").2
    ⟨[⟨"linux-amd64-debug", 0, "u1"⟩, ⟨"Linux-amd64", 0, "u2"⟩], ⟨"linux-amd64", 0, "u3"⟩,
      [⟨"linux-amd64", 0, "u4"⟩], by decide, by decide, by decide, rfl⟩

end core

namespace core

/-! ### The log -/

theorem Emits.of_log_eq {P : Event → Prop} {w w2 : World} (h : w2.log = w.log) :
    Emits P w w2 :=
  ⟨[], by simp [h], by simp⟩

theorem Emits.trans {P : Event → Prop} {w v u : World} (h1 : Emits P w v)
    (h2 : Emits P v u) : Emits P w u := by
  obtain ⟨d1, e1, p1⟩ := h1
  obtain ⟨d2, e2, p2⟩ := h2
  refine ⟨d1 ++ d2, by rw [e2, e1, List.append_assoc], ?_⟩
  intro e he
  rcases List.mem_append.mp he with h | h
  · exact p1 e h
  · exact p2 e h

theorem Emits.mono {P Q : Event → Prop} {w w2 : World} (h : Emits P w w2)
    (hpq : ∀ e, P e → Q e) : Emits Q w w2 := by
  obtain ⟨d, e1, p1⟩ := h
  exact ⟨d, e1, fun e he => hpq e (p1 e he)⟩

theorem Emits.record {P : Event → Prop} (w : World) (e : Event) (h : P e) :
    Emits P w (w.record e) :=
  ⟨[e], rfl, by simpa using h⟩

theorem Emits.andThen {P : Event → Prop} {α β : Type} {w : World}
    (r : Res α × World) (k : α → World → Res β × World)
    (h1 : Emits P w r.2) (h2 : ∀ a w1, Emits P w1 (k a w1).2) :
    Emits P w (andThen r k).2 := by
  rcases r with ⟨r1, w1⟩
  cases r1 with
  | ok a => exact h1.trans (h2 a w1)
  | err e => exact h1
  | exit c => exact h1
  | panic m => exact h1

theorem unzipLoop_log (sys : Sys) (files : List ZipFile) :
    ∀ w : World, (unzipLoop sys w files).2.log = w.log := by
  induction files with
  | nil => intro w; rfl
  | cons f rest ih =>
    intro w
    unfold unzipLoop
    simp only
    split
    · rw [ih]
    · split
      · rfl
      · split
        · rfl
        · split
          · rfl
          · rw [ih]
          · rfl

theorem unzip_emits (sys : Sys) (w : World) (file : String) :
    Emits (fun e => e = .call "unzip" [file]) w (GitHub.unzip sys w file).2 := by
  refine Emits.trans
    (Emits.record (P := fun e => e = .call "unzip" [file]) w (.call "unzip" [file]) rfl)
    (Emits.of_log_eq ?_)
  unfold GitHub.unzip
  simp only
  split
  · rfl
  · have := unzipLoop_log sys ‹_› (w.record (.call "unzip" [file]))
    split <;> simp_all

theorem downloadFile_emits (sys : Sys) (t : GitHub) (w : World) (url file : String) :
    Emits (fun e => e = .call "downloadFile" [url, file] ∨
        e = .http ⟨"GET", url, [("Authorization", "token " ++ t.AccessToken)]⟩)
      w (t.downloadFile sys w url file).2 := by
  refine (Emits.record w (.call "downloadFile" [url, file]) (Or.inl rfl)).trans ?_
  unfold GitHub.downloadFile newRequest
  simp only
  cases sys.urlErr url with
  | some e => exact Emits.of_log_eq rfl
  | none =>
    simp only [Request.addHeader, List.nil_append]
    refine (Emits.record _ _ (Or.inr rfl)).trans (Emits.of_log_eq ?_)
    split
    · rfl
    · split
      · split <;> rfl
      · split
        · rfl
        · split <;> rfl

theorem doGet_emits (sys : Sys) (w : World) (url : String) :
    Emits (fun e => ∃ req, e = .http req) w (GitHub.doGet sys w url).2 := by
  unfold GitHub.doGet newRequest
  cases sys.urlErr url with
  | some e => exact Emits.of_log_eq rfl
  | none =>
    simp only
    refine Emits.trans
      (v := w.record (.http (Request.addHeader ⟨"GET", url, []⟩ "Accept"
        "application/vnd.github.v3+json")))
      (Emits.record _ _ ⟨_, rfl⟩) (Emits.of_log_eq ?_)
    split
    · rfl
    · split
      · rfl
      · rfl
      · rfl
      · split <;> rfl

theorem getLastRunOfBranch_emits (sys : Sys) (w : World) (branch commit : String) :
    Emits (fun e => e = .call "getLastRunOfBranch" [branch, commit] ∨ ∃ req, e = .http req)
      w (GitHub.getLastRunOfBranch sys w branch commit).2 := by
  unfold GitHub.getLastRunOfBranch
  refine (Emits.record w _ (Or.inl rfl)).trans ?_
  refine Emits.andThen _ _ ((doGet_emits sys _ _).mono fun e h => Or.inr h) ?_
  intro body w1
  refine Emits.of_log_eq ?_
  simp only
  split
  · rfl
  · split <;> rfl

theorem getDownloadUrl_emits (sys : Sys) (w : World) (runId : Nat) :
    Emits (fun e => e = .call "getDownloadUrl" [toString runId] ∨ ∃ req, e = .http req)
      w (GitHub.getDownloadUrl sys w runId).2 := by
  unfold GitHub.getDownloadUrl
  refine (Emits.record w _ (Or.inl rfl)).trans ?_
  refine Emits.andThen _ _ ((doGet_emits sys _ _).mono fun e h => Or.inr h) ?_
  intro body w1
  refine Emits.of_log_eq ?_
  simp only
  split <;> rfl

theorem GetHeadCommit_emits (sys : Sys) (w : World) (branch : String) :
    Emits (fun e => e = .call "GetHeadCommit" [branch] ∨ ∃ req, e = .http req)
      w (GitHub.GetHeadCommit sys w branch).2 := by
  unfold GitHub.GetHeadCommit
  refine (Emits.record w _ (Or.inl rfl)).trans ?_
  refine Emits.andThen _ _ ((doGet_emits sys _ _).mono fun e h => Or.inr h) ?_
  intro body w1
  refine Emits.of_log_eq ?_
  split
  · rfl
  · split <;> rfl

theorem fetchInto_emits (sys : Sys) (t : GitHub) (w : World) (commit url : String) :
    Emits (fun e => e = .call "downloadFile" [url, "launcher.zip"] ∨
        e = .http ⟨"GET", url, [("Authorization", "token " ++ t.AccessToken)]⟩ ∨
        e = .call "unzip" ["launcher.zip"])
      w (t.fetchInto sys w commit url).2 := by
  unfold GitHub.fetchInto
  simp only
  refine Emits.andThen _ _ ?_ ?_
  · refine Emits.of_log_eq ?_
    split
    · split <;> rfl
    · rfl
  · intro _ w1
    split
    · exact Emits.of_log_eq rfl
    · refine Emits.andThen _ _ ?_ ?_
      · rw [wrapErr_snd]
        refine Emits.trans (v := { w1 with cwd := ‹Path› }) (Emits.of_log_eq rfl) ?_
        exact (downloadFile_emits sys t _ url "launcher.zip").mono fun e h => by
          rcases h with h | h
          · exact Or.inl h
          · exact Or.inr (Or.inl h)
      · intro _ w2
        rw [wrapErr_snd]
        exact (unzip_emits sys w2 "launcher.zip").mono fun e h => Or.inr (Or.inr h)

/-! ### `DownloadLatestBinary` -/

/-- C1: for a branch that matches the release pattern, `DownloadLatestBinary`
builds the URL from the branch, the OS and the architecture alone and goes
straight on to the download: besides its own entry it only calls
`downloadFile` with that URL and `unzip`, and the only HTTP request is the
download from that URL; there is no call of `getLastRunOfBranch` or
`getDownloadUrl` and no request to the CI listing. -/
theorem DownloadLatestBinary_release (sys : Sys) (t : GitHub) (w : World)
    (branch commit : String) (h : ReleaseRef.Match branch = true) :
    releaseUrl sys branch =
      "https://github.com/opendexnetwork/opendex-docker/releases/download/" ++ branch ++
        "/launcher-" ++ sys.GOOS ++ "-" ++ sys.GOARCH ++ ".zip" ∧
    t.DownloadLatestBinary sys w branch commit =
      t.fetchInto sys (w.record (.call "DownloadLatestBinary" [branch, commit])) commit
        (releaseUrl sys branch) ∧
    Emits (fun e => e = .call "DownloadLatestBinary" [branch, commit] ∨
        e = .call "downloadFile" [releaseUrl sys branch, "launcher.zip"] ∨
        e = .http ⟨"GET", releaseUrl sys branch,
          [("Authorization", "token " ++ t.AccessToken)]⟩ ∨
        e = .call "unzip" ["launcher.zip"])
      w (t.DownloadLatestBinary sys w branch commit).2 := by
  have heq : t.DownloadLatestBinary sys w branch commit =
      t.fetchInto sys (w.record (.call "DownloadLatestBinary" [branch, commit])) commit
        (releaseUrl sys branch) := by
    unfold GitHub.DownloadLatestBinary GitHub.chooseUrl
    simp [h, andThen]
  refine ⟨rfl, heq, ?_⟩
  rw [heq]
  refine (Emits.record w _ (Or.inl rfl)).trans ?_
  exact (fetchInto_emits sys t _ commit _).mono fun e h => Or.inr h

/-- Witness of C1: the release `21.02.02` on the sample machine. -/
theorem DownloadLatestBinary_release_witness :
    ReleaseRef.Match "21.02.02" = true ∧
    demo.launcher.GitHub.DownloadLatestBinary demo.sys (demo.world demo.freshFS)
        "21.02.02" "abc123" =
      demo.launcher.GitHub.fetchInto demo.sys
        ((demo.world demo.freshFS).record
          (.call "DownloadLatestBinary" ["21.02.02", "abc123"])) "abc123"
        (releaseUrl demo.sys "21.02.02") :=
  ⟨by decide,
    (DownloadLatestBinary_release demo.sys demo.launcher.GitHub (demo.world demo.freshFS)
      "21.02.02" "abc123" (by decide)).2.1⟩

/-- C2: for a branch that is not a release ref, when the run list returned for
the branch is empty or its first run was made for another commit,
`getLastRunOfBranch` fails with `ErrNotFound` and `DownloadLatestBinary`
fails with a message that holds "does not have a binary launcher" and the
branch; the filesystem and the working directory are untouched and the only
request made is the one for the run list. -/
theorem DownloadLatestBinary_no_build (sys : Sys) (t : GitHub) (w : World)
    (branch commit body : String) (hrel : ReleaseRef.Match branch = false)
    (hget : (GitHub.doGet sys w (runsUrl branch)).1 = .ok body)
    (hruns : (sys.unmarshalWorkflowRunList body).1.WorkflowRuns = [] ∨
      ∃ run rest, (sys.unmarshalWorkflowRunList body).1.WorkflowRuns = run :: rest ∧
        run.HeadSha ≠ commit) :
    (GitHub.getLastRunOfBranch sys w branch commit).1 = .err .ErrNotFound ∧
    (t.DownloadLatestBinary sys w branch commit).1 =
      .err (.new (noLauncherBuild branch commit)) ∧
    "does not have a binary launcher".data <:+:
      (GoError.new (noLauncherBuild branch commit)).Error.data ∧
    branch.data <:+: (GoError.new (noLauncherBuild branch commit)).Error.data ∧
    (t.DownloadLatestBinary sys w branch commit).2.fs = w.fs ∧
    (t.DownloadLatestBinary sys w branch commit).2.cwd = w.cwd ∧
    (t.DownloadLatestBinary sys w branch commit).2.log =
      w.log ++ [.call "DownloadLatestBinary" [branch, commit],
        .call "getLastRunOfBranch" [branch, commit],
        .http ⟨"GET", runsUrl branch, [("Accept", "application/vnd.github.v3+json")]⟩] := by
  have hg := doGet_ok_eq sys w _ body hget
  have hlast : ∀ w0 : World, GitHub.getLastRunOfBranch sys w0 branch commit =
      (.err .ErrNotFound, (w0.record (.call "getLastRunOfBranch" [branch, commit])).record
        (.http ⟨"GET", runsUrl branch, [("Accept", "application/vnd.github.v3+json")]⟩)) := by
    intro w0
    unfold GitHub.getLastRunOfBranch
    simp only [hg, andThen]
    rcases hruns with h0 | ⟨run, rest, h1, hne⟩
    · simp [h0]
    · simp [h1, hne]
  refine ⟨by rw [hlast], ?_, ?_, ?_, ?_, ?_, ?_⟩
  · unfold GitHub.DownloadLatestBinary GitHub.chooseUrl
    simp [hrel, hlast, andThen, GoError.isNotFound]
  · refine ⟨("no launcher build for commit " ++ commit ++ " (The branch \"" ++ branch ++
      "\" ").data, ")".data, ?_⟩
    simp [GoError.Error, noLauncherBuild, String.data_append]
  · refine ⟨("no launcher build for commit " ++ commit ++ " (The branch \"").data,
      "\" does not have a binary launcher)".data, ?_⟩
    simp [GoError.Error, noLauncherBuild, String.data_append]
  · unfold GitHub.DownloadLatestBinary GitHub.chooseUrl
    simp [hrel, hlast, andThen, GoError.isNotFound, World.record]
  · unfold GitHub.DownloadLatestBinary GitHub.chooseUrl
    simp [hrel, hlast, andThen, GoError.isNotFound, World.record]
  · unfold GitHub.DownloadLatestBinary GitHub.chooseUrl
    simp [hrel, hlast, andThen, GoError.isNotFound, World.record]

/-- Witness of C2: branch `master` of the sample repository, whose latest run
was made for `def456`, asked for commit `abc123`. -/
theorem DownloadLatestBinary_no_build_witness :
    (demo.launcher.GitHub.DownloadLatestBinary demo.sys (demo.world demo.freshFS)
        "master" "abc123").1 =
      .err (.new
        "no launcher build for commit abc123 (The branch \"master\" does not have a binary launcher)") :=
  (DownloadLatestBinary_no_build demo.sys demo.launcher.GitHub (demo.world demo.freshFS)
    "master" "abc123" demo.runsBody (by decide) (by decide)
    (Or.inr ⟨⟨5, "", "master", "def456"⟩, [], by decide, by decide⟩)).2.1

/-! ### `Start` -/

theorem setNetworkEnv_log (w : World) (network networkDir : String) :
    (Launcher.setNetworkEnv w network networkDir).2.log = w.log := by
  unfold Launcher.setNetworkEnv
  split
  · rfl
  · split <;> rfl

theorem ensureExecutable_log (sys : Sys) (w : World) :
    (Launcher.ensureExecutable sys w).2.log = w.log := by
  unfold Launcher.ensureExecutable
  split
  · split
    · rfl
    · split
      · split <;> rfl
      · rfl
  · rfl

theorem Run_snd (sys : Sys) (w : World) (name : String) (args : List String) :
    (Launcher.Run sys w name args).2 = w.record (.exec name args) := by
  unfold Launcher.Run
  simp only
  split
  · rfl
  · split <;> rfl
  · rfl

theorem runLauncher_emits (sys : Sys) (w : World) (launcher : String)
    (args : List String) :
    Emits (fun e => ∃ n a, e = .exec n a) w (Launcher.runLauncher sys w launcher args).2 := by
  unfold Launcher.runLauncher
  cases args with
  | nil => exact Emits.of_log_eq rfl
  | cons a rest =>
    simp only
    have h := Run_snd sys w launcher rest
    have hrec : Emits (fun e => ∃ n a, e = .exec n a) w (Launcher.Run sys w launcher rest).2 := by
      rw [h]
      exact Emits.record w _ ⟨_, _, rfl⟩
    rcases hr : Launcher.Run sys w launcher rest with ⟨r1, w2⟩
    rw [hr] at hrec
    cases r1 with
    | ok u => exact hrec
    | exit c => exact hrec
    | panic m => exact hrec
    | err e => cases e <;> exact hrec

/-- What follows the cache decision (launcher.go, lines 130-165) only logs the
run of the child. -/
theorem launch_emits (sys : Sys) (w : World) (network networkDir : String)
    (args : List String) :
    Emits (fun e => ∃ n a, e = .exec n a) w
      (andThen (andThen (Launcher.setNetworkEnv w network networkDir)
        fun _ w => Launcher.ensureExecutable sys w)
        fun l w => Launcher.runLauncher sys w l args).2 := by
  refine Emits.andThen _ _ ?_ ?_
  · refine Emits.andThen _ _ (Emits.of_log_eq (setNetworkEnv_log w network networkDir)) ?_
    intro _ w1
    exact Emits.of_log_eq (ensureExecutable_log sys w1)
  · intro l w1
    exact runLauncher_emits sys w1 l args

theorem andThen_assoc {α β γ : Type} (r : Res α × World)
    (k : α → World → Res β × World) (k2 : β → World → Res γ × World) :
    andThen (andThen r k) k2 = andThen r fun a w => andThen (k a w) k2 := by
  rcases r with ⟨r1, w⟩
  cases r1 <;> rfl

theorem chooseUrl_emits (sys : Sys) (w : World) (branch commit : String) :
    Emits (fun e => ∀ a, e ≠ .call "DownloadLatestBinary" a) w
      (GitHub.chooseUrl sys w branch commit).2 := by
  unfold GitHub.chooseUrl
  split
  · exact Emits.of_log_eq rfl
  · have h1 : Emits (fun e => ∀ a, e ≠ .call "DownloadLatestBinary" a) w
        (GitHub.getLastRunOfBranch sys w branch commit).2 :=
      (getLastRunOfBranch_emits sys w branch commit).mono fun e h a => by
        rcases h with h | ⟨req, h⟩ <;> subst h <;> simp
    rcases hr : GitHub.getLastRunOfBranch sys w branch commit with ⟨r1, w1⟩
    rw [hr] at h1
    cases r1 with
    | err e =>
      simp only
      split <;> exact h1
    | exit c => exact h1
    | panic m => exact h1
    | ok run =>
      simp only [wrapErr_snd]
      refine h1.trans ?_
      exact (getDownloadUrl_emits sys w1 run.Id).mono fun e h a => by
        rcases h with h | ⟨req, h⟩ <;> subst h <;> simp

/-- `DownloadLatestBinary` logs its own entry once, first. -/
theorem DownloadLatestBinary_log (sys : Sys) (t : GitHub) (w : World)
    (branch commit : String) :
    Emits (fun e => ∀ a, e ≠ .call "DownloadLatestBinary" a)
      (w.record (.call "DownloadLatestBinary" [branch, commit]))
      (t.DownloadLatestBinary sys w branch commit).2 := by
  unfold GitHub.DownloadLatestBinary
  refine Emits.andThen _ _ (chooseUrl_emits sys _ branch commit) ?_
  intro url w1
  exact (fetchInto_emits sys t w1 commit url).mono fun e h a => by
    rcases h with h | h | h <;> subst h <;> simp

/-- C6: when the child that `Start` launches exits with a non-zero code `c`,
`Start` ends the process with exit code `c` (so `main` exits with `c`, not
with 1); when the child exits with 0, `Start` returns no error. -/
theorem Start_exit_code (sys : Sys) (t : Launcher) (w : World)
    (branch network networkDir arg0 : String) (rest : List String)
    (launcher : String) (w1 : World) (c : Nat)
    (hprep : t.prepare sys w branch network networkDir = (.ok launcher, w1))
    (hchild : os.startProcess sys (w1.record (.exec launcher rest)) launcher rest =
      .ok (.exited c)) :
    (c ≠ 0 →
      (t.Start sys w branch network networkDir (arg0 :: rest)).1 = .exit c ∧
      mainExit sys t w branch network networkDir (arg0 :: rest) = c) ∧
    (c = 0 → (t.Start sys w branch network networkDir (arg0 :: rest)).1 = .ok ()) := by
  have hrun : Launcher.Run sys w1 launcher rest =
      (if c = 0 then .ok () else .err (.exitError c), w1.record (.exec launcher rest)) := by
    unfold Launcher.Run
    simp only [hchild]
    split <;> rfl
  constructor
  · intro hc
    have hs : (t.Start sys w branch network networkDir (arg0 :: rest)).1 = .exit c := by
      unfold Launcher.Start
      rw [hprep]
      simp [andThen, Launcher.runLauncher, hrun, hc]
    exact ⟨hs, by simp [mainExit, hs]⟩
  · intro hc
    unfold Launcher.Start
    rw [hprep]
    simp [andThen, Launcher.runLauncher, hrun, hc]

/-- Witness of C6: the cached binary of the sample machine exits with 7, and
so does the launcher. -/
theorem Start_exit_code_witness :
    (demo.launcher.Start demo.sys (demo.world demo.cachedFS) "master" "mainnet"
        "/home/mainnet" ["opendex-launcher", "setup"]).1 = .exit 7 ∧
    mainExit demo.sys demo.launcher (demo.world demo.cachedFS) "master" "mainnet"
        "/home/mainnet" ["opendex-launcher", "setup"] = 7 :=
  (Start_exit_code demo.sys demo.launcher (demo.world demo.cachedFS) "master" "mainnet"
    "/home/mainnet" "opendex-launcher" ["setup"] "./launcher"
    (demo.launcher.prepare demo.sys (demo.world demo.cachedFS) "master" "mainnet"
      "/home/mainnet").2
    7 (Prod.ext (by decide) rfl) rfl).1 (by decide)

/-- C9 fails on the code: on Linux, with release `21.02.02` whose archive
holds no `launcher`, the binary is missing after the fetch step and `Start`
panics at `info.Mode()` instead of returning a "run: ..." error. -/
theorem Start_missing_binary_panics :
    demo.sys.GOOS ≠ "windows" ∧
    (demo.launcher.ensureBinary demo.sys
        (demo.launcher.resolveCommit demo.sys (demo.world demo.freshFS) "21.02.02").2
        "21.02.02" "abc123").1 = .ok () ∧
    (demo.launcher.Start demo.sys (demo.world demo.freshFS) "21.02.02" "mainnet"
        "/home/mainnet" ["opendex-launcher"]).2.fs
      ["home", "launcher", "versions", "abc123", "launcher"] = none ∧
    (demo.launcher.Start demo.sys (demo.world demo.freshFS) "21.02.02" "mainnet"
        "/home/mainnet" ["opendex-launcher"]).1 =
      .panic "invalid memory address or nil pointer dereference" := by
  decide

/-- Whenever the binary is missing on a platform other than Windows, the
executable-bit check panics. -/
theorem ensureExecutable_panics (sys : Sys) (w : World) (e : Errno)
    (hos : sys.GOOS ≠ "windows")
    (hstat : os.Stat w (parsePath sys (launcherName sys)) = .error e) :
    Launcher.ensureExecutable sys w =
      (.panic "invalid memory address or nil pointer dereference", w) := by
  unfold Launcher.ensureExecutable
  simp [hos, hstat]

/-- C5 (as amended): once `Start` has resolved the commit and entered the
versions directory, the download branch is taken exactly when `os.Stat` of
the expected binary reports that it does not exist.  Then
`DownloadLatestBinary` is called exactly once.  Otherwise (the file exists,
or `os.Stat` fails in another way) `Start` calls neither
`DownloadLatestBinary`, `downloadFile` nor `unzip` and makes no request: it
changes into the commit directory and goes on to set NETWORK / NETWORK_DIR
and to run the binary, logging nothing but that run. -/
theorem Start_cache_decision (sys : Sys) (t : Launcher) (w : World)
    (branch network networkDir : String) (args : List String) (commit : String)
    (w1 : World) (hres : t.resolveCommit sys w branch = (.ok commit, w1)) :
    (os.Stat w1 (commitLauncher sys commit) = .error .ENOENT →
      ∃ d, (t.Start sys w branch network networkDir args).2.log =
          w1.log ++ .call "DownloadLatestBinary" [branch, commit] :: d ∧
        ∀ e ∈ d, ∀ a, e ≠ .call "DownloadLatestBinary" a) ∧
    (os.Stat w1 (commitLauncher sys commit) ≠ .error .ENOENT →
      Emits (fun e => ∃ n a, e = .exec n a) w1
        (t.Start sys w branch network networkDir args).2 ∧
      t.Start sys w branch network networkDir args =
        match os.Chdir w1 (parsePath sys commit) with
        | .error e => (.err (.wrap "chdir" (.sys e)), w1)
        | .ok cwd =>
          andThen (andThen (Launcher.setNetworkEnv { w1 with cwd := cwd } network networkDir)
            fun _ w => Launcher.ensureExecutable sys w)
            fun l w => Launcher.runLauncher sys w l args) := by
  have hstart : t.Start sys w branch network networkDir args =
      andThen (t.ensureBinary sys w1 branch commit) fun _ w =>
        andThen (andThen (Launcher.setNetworkEnv w network networkDir)
          fun _ w => Launcher.ensureExecutable sys w)
          fun l w => Launcher.runLauncher sys w l args := by
    unfold Launcher.Start Launcher.prepare
    rw [hres]
    simp only [andThen_assoc]
    rfl
  constructor
  · intro hmiss
    have hbin : t.ensureBinary sys w1 branch commit =
        wrapErr "download latest binary"
          (t.GitHub.DownloadLatestBinary sys w1 branch commit) := by
      unfold Launcher.ensureBinary
      simp [hmiss]
    have hem : Emits (fun e => ∀ a, e ≠ .call "DownloadLatestBinary" a)
        (w1.record (.call "DownloadLatestBinary" [branch, commit]))
        (t.Start sys w branch network networkDir args).2 := by
      rw [hstart, hbin]
      refine Emits.andThen _ _ ?_ ?_
      · rw [wrapErr_snd]
        exact DownloadLatestBinary_log sys t.GitHub w1 branch commit
      · intro _ w2
        exact (launch_emits sys w2 network networkDir args).mono fun e h a => by
          obtain ⟨n, b, h⟩ := h
          subst h
          simp
    obtain ⟨d, hd, hp⟩ := hem
    refine ⟨d, ?_, hp⟩
    rw [hd]
    simp [World.record]
  · intro hhit
    have hbin : t.ensureBinary sys w1 branch commit =
        match os.Chdir w1 (parsePath sys commit) with
        | .error e => (.err (.wrap "chdir" (.sys e)), w1)
        | .ok cwd => (.ok (), { w1 with cwd := cwd }) := by
      unfold Launcher.ensureBinary
      split
      · rename_i h
        exact absurd h hhit
      · rfl
    have heq : t.Start sys w branch network networkDir args =
        match os.Chdir w1 (parsePath sys commit) with
        | .error e => (.err (.wrap "chdir" (.sys e)), w1)
        | .ok cwd =>
          andThen (andThen (Launcher.setNetworkEnv { w1 with cwd := cwd } network networkDir)
            fun _ w => Launcher.ensureExecutable sys w)
            fun l w => Launcher.runLauncher sys w l args := by
      rw [hstart, hbin]
      cases os.Chdir w1 (parsePath sys commit) <;> rfl
    refine ⟨?_, heq⟩
    rw [heq]
    cases os.Chdir w1 (parsePath sys commit) with
    | error e => exact Emits.of_log_eq rfl
    | ok cwd =>
      exact Emits.trans (v := { w1 with cwd := cwd }) (Emits.of_log_eq rfl)
        (launch_emits sys _ network networkDir args)

/-- Witness of C5: on a fresh installation the binary of `abc123` is missing
and `DownloadLatestBinary` is called once. -/
theorem Start_cache_decision_witness :
    ∃ d, (demo.launcher.Start demo.sys (demo.world demo.freshFS) "master" "mainnet"
          "/home/mainnet" ["opendex-launcher"]).2.log =
        (demo.launcher.resolveCommit demo.sys (demo.world demo.freshFS) "master").2.log ++
          .call "DownloadLatestBinary" ["master", "abc123"] :: d ∧
      ∀ e ∈ d, ∀ a, e ≠ .call "DownloadLatestBinary" a :=
  (Start_cache_decision demo.sys demo.launcher (demo.world demo.freshFS) "master" "mainnet"
    "/home/mainnet" ["opendex-launcher"] "abc123"
    (demo.launcher.resolveCommit demo.sys (demo.world demo.freshFS) "master").2
    (Prod.ext (by decide) rfl)).1 rfl

/-- C5 (as stated) fails: when a regular file sits where the commit directory
should be, the expected binary does not exist (`os.Stat` fails with ENOTDIR,
nothing is at its path), yet `Start` takes the cache-hit branch: it never
calls `DownloadLatestBinary` and fails in `os.Chdir`. -/
theorem Start_cache_decision_counterexample :
    (demo.launcher.resolveCommit demo.sys (demo.world demo.blockedFS) "master").1 =
      .ok "abc123" ∧
    demo.blockedFS ["home", "launcher", "versions", "abc123", "launcher"] = none ∧
    os.Stat (demo.launcher.resolveCommit demo.sys (demo.world demo.blockedFS) "master").2
      (commitLauncher demo.sys "abc123") = .error .ENOTDIR ∧
    (demo.launcher.Start demo.sys (demo.world demo.blockedFS) "master" "mainnet"
        "/home/mainnet" ["opendex-launcher"]).1 =
      .err (.wrap "chdir" (.sys .ENOTDIR)) ∧
    (demo.launcher.Start demo.sys (demo.world demo.blockedFS) "master" "mainnet"
        "/home/mainnet" ["opendex-launcher"]).2.log =
      [.call "GetHeadCommit" ["master"],
        .http ⟨"GET", "https://api.github.com/repos/opendexnetwork/opendex-docker/commits/master",
          [("Accept", "application/vnd.github.v3+json")]⟩] := by
  refine ⟨by decide, by decide, rfl, by decide, by decide⟩

/-! ### The frame of `unzip` -/

theorem set_other (fs : FS) (q p : Path) (n : Node) (h : p ≠ q) : fs.set q n p = fs p := by
  simp [FS.set, h]

theorem write_other (fs : FS) (q p : Path) (d : String) (h : p ≠ q) :
    os.write fs q d p = fs p := by
  unfold os.write
  cases fs q with
  | none => rfl
  | some n =>
    cases n with
    | dir m => rfl
    | symlink t => rfl
    | file m data => exact set_other fs q p _ h

theorem Keeps.refl (fs : FS) : Keeps fs fs := fun _ h => h

theorem Keeps.chain {fs1 fs2 fs3 : FS} (h1 : Keeps fs1 fs2) (h2 : Keeps fs2 fs3) :
    Keeps fs1 fs3 := fun x h => h1 x (h2 x h)

theorem Keeps.set (fs : FS) (q : Path) (n : Node) (hn : n.isSymlink = false) :
    Keeps fs (fs.set q n) := by
  intro x h
  by_cases hx : x = q
  · subst hx
    cases n <;> simp [isSymlinkAt, FS.set, Node.isSymlink] at h hn
  · simpa [isSymlinkAt, FS.set, hx] using h

theorem Keeps.write (fs : FS) (q : Path) (d : String) : Keeps fs (os.write fs q d) := by
  unfold os.write
  cases fs q with
  | none => exact Keeps.refl fs
  | some n =>
    cases n with
    | dir m => exact Keeps.refl fs
    | symlink t => exact Keeps.refl fs
    | file m data => exact Keeps.set fs q _ rfl

theorem NoSymlink.keeps {fs fs2 : FS} {link : Path → Path} {places : List Path}
    (h : NoSymlink fs link places) (hk : Keeps fs fs2) : NoSymlink fs2 link places := by
  intro q hq
  cases hb : isSymlinkAt fs2 (link q) with
  | false => rfl
  | true =>
    have := hk _ hb
    rw [h q hq] at this
    cases this

theorem NoSymlink.subset {fs : FS} {link : Path → Path} {l l2 : List Path}
    (h : NoSymlink fs link l2) (hsub : ∀ q ∈ l, q ∈ l2) : NoSymlink fs link l :=
  fun q hq => h q (hsub q hq)

theorem mkdirAllWalk_keeps (link : Path → Path) (perm : Nat) (comps : List String) :
    ∀ (fs : FS) (cur : Path), Keeps fs (os.mkdirAllWalk link perm fs cur comps).2 := by
  induction comps with
  | nil =>
    intro fs cur
    unfold os.mkdirAllWalk
    split <;> exact Keeps.refl fs
  | cons c rest ih =>
    intro fs cur
    unfold os.mkdirAllWalk
    split
    · split
      · exact ih fs _
      · split
        · exact (Keeps.set fs _ (.dir perm) rfl).chain (ih _ _)
        · split
          · exact Keeps.refl fs
          · split
            · exact Keeps.refl fs
            · split
              · exact Keeps.refl fs
              · exact ih fs _
        · exact ih fs _
    · exact Keeps.refl fs
    · exact Keeps.refl fs
    · exact Keeps.refl fs

theorem mkdirAllWalk_frame (link : Path → Path) (perm : Nat) (x : Path)
    (comps : List String) :
    ∀ (fs : FS) (cur : Path), NoSymlink fs link (regTrail cur comps) →
      (∀ q ∈ regTrail cur comps, x ≠ link q) →
      (os.mkdirAllWalk link perm fs cur comps).2 x = fs x := by
  induction comps with
  | nil =>
    intro fs cur _ _
    unfold os.mkdirAllWalk
    split <;> rfl
  | cons c rest ih =>
    intro fs cur hs hx
    unfold os.mkdirAllWalk
    have hsr : NoSymlink fs link (regTrail (lexStep cur c) rest) :=
      hs.subset fun q hq => by
        simp only [regTrail, List.mem_append]
        exact Or.inr hq
    have hxr : ∀ q ∈ regTrail (lexStep cur c) rest, x ≠ link q := fun q hq =>
      hx q (by
        simp only [regTrail, List.mem_append]
        exact Or.inr hq)
    split
    · split
      · exact ih fs _ hsr hxr
      · rename_i hc
        have hmem : lexStep cur c ∈ regTrail cur (c :: rest) := by
          simp [regTrail, hc]
        have hne : x ≠ link (lexStep cur c) := hx _ hmem
        split
        · rw [ih _ _ (hsr.keeps (Keeps.set fs _ (.dir perm) rfl)) hxr]
          exact set_other fs _ x _ hne
        · rename_i target heq
          have := hs _ hmem
          simp [isSymlinkAt, heq, Node.isSymlink] at this
        · exact ih fs _ hsr hxr
    · rfl
    · rfl
    · rfl

theorem walkWith_eq_foldl (fs : FS) (link : Path → Path)
    (follow : Path → List String → Except Errno Path) (comps : List String) :
    ∀ (cur q : Path), NoSymlink fs link (regTrail cur comps) →
      walkWith fs link follow cur comps = .ok q → q = comps.foldl lexStep cur := by
  induction comps with
  | nil =>
    intro cur q _ h
    simp [walkWith] at h
    simp only [List.foldl_nil]
    exact h.symm
  | cons c rest ih =>
    intro cur q hs h
    have hsr : NoSymlink fs link (regTrail (lexStep cur c) rest) :=
      hs.subset fun q hq => by
        simp only [regTrail, List.mem_append]
        exact Or.inr hq
    unfold walkWith at h
    split at h
    · split at h
      · exact ih _ q hsr h
      · rename_i hc
        split at h
        · rename_i target heq
          have := hs (lexStep cur c) (by simp [regTrail, hc])
          simp [isSymlinkAt, heq, Node.isSymlink] at this
        · exact ih _ q hsr h
    · cases h
    · cases h
    · cases h

theorem walk_eq_foldl (fs : FS) (link : Path → Path) (comps : List String)
    (cur q : Path) (hs : NoSymlink fs link (regTrail cur comps))
    (h : walk fs link cur comps = .ok q) : q = comps.foldl lexStep cur :=
  walkWith_eq_foldl fs link (walkN fs link 40) comps cur q hs h

theorem foldl_mem_regTrail (comps : List String) (last : String) :
    ∀ cur : Path, comps.getLast? = some last → isSpecial last = false →
      comps.foldl lexStep cur ∈ regTrail cur comps := by
  induction comps with
  | nil => intro cur h; simp at h
  | cons c rest ih =>
    intro cur h hs
    cases rest with
    | nil =>
      simp at h
      subst h
      simp [regTrail, hs]
    | cons d rest2 =>
      have h2 : (d :: rest2).getLast? = some last := by
        simpa [List.getLast?_cons_cons] using h
      have := ih (lexStep cur c) h2 hs
      simp only [regTrail, List.mem_append, List.foldl_cons] at this ⊢
      exact Or.inr this

theorem OpenFile_frame (w : World) (pn : PathName) (perm : Nat) (h : Path) (fs2 : FS)
    (hs : NoSymlink w.fs w.link (regTrail (w.start pn) pn.comps))
    (hopen : os.OpenFile w pn perm = .ok (h, fs2)) :
    (∃ q ∈ regTrail (w.start pn) pn.comps, h = w.link q) ∧
    (∀ x, x ≠ h → fs2 x = w.fs x) ∧ Keeps w.fs fs2 := by
  unfold os.OpenFile at hopen
  split at hopen
  · cases hopen
  · rename_i last hlast
    split at hopen
    · cases hopen
    · rename_i q0 hq
      unfold os.lookup at hq
      split at hq
      · cases hq
      · have hq0 := walk_eq_foldl _ _ _ _ _ hs hq
        split at hopen
        · cases hopen
        · rename_i hsp
          have hmem : q0 ∈ regTrail (w.start pn) pn.comps := by
            rw [hq0]
            exact foldl_mem_regTrail _ last _ hlast (by simpa using hsp)
          split at hopen
          · cases hopen
          · cases hopen
          · simp only [Except.ok.injEq, Prod.mk.injEq] at hopen
            obtain ⟨h1, h2⟩ := hopen
            subst h1 h2
            exact ⟨⟨q0, hmem, rfl⟩, fun x hx => set_other _ _ _ _ hx, Keeps.set _ _ _ rfl⟩
          · simp only [Except.ok.injEq, Prod.mk.injEq] at hopen
            obtain ⟨h1, h2⟩ := hopen
            subst h1 h2
            exact ⟨⟨q0, hmem, rfl⟩, fun x hx => set_other _ _ _ _ hx, Keeps.set _ _ _ rfl⟩

theorem regTrail_append (l1 l2 : List String) :
    ∀ cur : Path, regTrail cur (l1 ++ l2) =
      regTrail cur l1 ++ regTrail (l1.foldl lexStep cur) l2 := by
  induction l1 with
  | nil => intro cur; simp [regTrail]
  | cons c rest ih =>
    intro cur
    simp [regTrail, ih, List.append_assoc]

theorem lexStep_regular (cur : Path) (c : String) (h1 : c ≠ "") (h2 : c ≠ ".")
    (h3 : c ≠ "..") : lexStep cur c = cur ++ [c] := by
  simp [lexStep, h1, h2, h3]

/-- What `filepath.Clean` keeps leads to the same place, through places the
uncleaned name leads through. -/
theorem clean_inv (rooted : Bool) (start : Path) (hroot : rooted = true → start = [])
    (comps : List String) :
    (comps.foldl (cleanStep rooted) []).foldl lexStep start = comps.foldl lexStep start ∧
    (∀ p ∈ regTrail start (comps.foldl (cleanStep rooted) []), p ∈ regTrail start comps) ∧
    (∀ x ∈ comps.foldl (cleanStep rooted) [], x ≠ "" ∧ x ≠ ".") := by
  induction comps using List.reverseRecOn with
  | nil => simp [regTrail]
  | append_singleton l c ih =>
    obtain ⟨ih1, ih2, ih3⟩ := ih
    simp only [List.foldl_append, List.foldl_cons, List.foldl_nil]
    generalize hout : l.foldl (cleanStep rooted) [] = out at ih1 ih2 ih3 ⊢
    have htr : ∀ p, p ∈ regTrail start l → p ∈ regTrail start (l ++ [c]) := by
      intro p hp
      rw [regTrail_append]
      exact List.mem_append_left _ hp
    by_cases h1 : c = ""
    · subst h1
      refine ⟨?_, ?_, ?_⟩
      · simp [cleanStep, lexStep, ih1]
      · intro p hp
        exact htr p (ih2 p (by simpa [cleanStep] using hp))
      · intro x hx
        exact ih3 x (by simpa [cleanStep] using hx)
    by_cases h2 : c = "."
    · subst h2
      refine ⟨?_, ?_, ?_⟩
      · simp [cleanStep, lexStep, ih1]
      · intro p hp
        exact htr p (ih2 p (by simpa [cleanStep] using hp))
      · intro x hx
        exact ih3 x (by simpa [cleanStep] using hx)
    by_cases h3 : c = ".."
    · subst h3
      have hstep : ∀ x : Path, lexStep x ".." = x.dropLast := by
        intro x
        simp [lexStep]
      rcases hl : out.getLast? with _ | l0
      · have hnil : out = [] := by simpa using hl
        subst hnil
        simp only [List.foldl_nil] at ih1
        cases hr : rooted with
        | true =>
          have hs := hroot hr
          rw [hs] at ih1
          refine ⟨?_, ?_, ?_⟩
          · simp [cleanStep, hstep, ← ih1, hs]
          · intro p hp
            simp [cleanStep, hr, regTrail] at hp
          · intro x hx
            simp [cleanStep, hr] at hx
        | false =>
          refine ⟨?_, ?_, ?_⟩
          · simp [cleanStep, hr, hstep, ← ih1]
          · intro p hp
            simp [cleanStep, hr, regTrail, isSpecial] at hp
          · intro x hx
            simp [cleanStep, hr] at hx
            simp [hx]
      · by_cases hdd : l0 = ".."
        · subst hdd
          refine ⟨?_, ?_, ?_⟩
          · simp [cleanStep, hl, hstep, List.foldl_append, ih1]
          · intro p hp
            have : p ∈ regTrail start out := by
              simpa [cleanStep, hl, regTrail_append, regTrail, isSpecial] using hp
            exact htr p (ih2 p this)
          · intro x hx
            simp [cleanStep, hl] at hx
            rcases hx with hx | hx
            · exact ih3 x hx
            · simp [hx]
        · have hsplit : out = out.dropLast ++ [l0] := by
            have hne : out ≠ [] := by
              intro h
              simp [h] at hl
            rw [List.getLast?_eq_getLast _ hne] at hl
            simp only [Option.some.injEq] at hl
            rw [← hl]
            exact (List.dropLast_append_getLast hne).symm
          have hl0 := ih3 l0 (by rw [hsplit]; simp)
          have hfold : out.foldl lexStep start = out.dropLast.foldl lexStep start ++ [l0] := by
            conv_lhs => rw [hsplit]
            simp [List.foldl_append, lexStep_regular _ l0 hl0.1 hl0.2 hdd]
          refine ⟨?_, ?_, ?_⟩
          · simp [cleanStep, hl, hdd, hstep, ← ih1, hfold]
          · intro p hp
            have hp2 : p ∈ regTrail start out.dropLast := by
              simpa [cleanStep, hl, hdd] using hp
            have : p ∈ regTrail start out := by
              rw [hsplit, regTrail_append]
              exact List.mem_append_left _ hp2
            exact htr p (ih2 p this)
          · intro x hx
            have hx2 : x ∈ out.dropLast := by
              simpa [cleanStep, hl, hdd] using hx
            exact ih3 x (List.mem_of_mem_dropLast hx2)
    · have hstep : ∀ x : Path, lexStep x c = x ++ [c] := fun x =>
        lexStep_regular x c h1 h2 h3
      have hsp : isSpecial c = false := by simp [isSpecial, h1, h2, h3]
      have hclean : cleanStep rooted out c = out ++ [c] := by
        simp [cleanStep, h1, h2, h3]
      rw [hclean]
      refine ⟨?_, ?_, ?_⟩
      · simp [List.foldl_append, hstep, ih1]
      · intro p hp
        simp only [regTrail_append, List.mem_append] at hp
        rw [regTrail_append]
        rcases hp with hp | hp
        · exact List.mem_append_left _ (ih2 p hp)
        · refine List.mem_append_right _ ?_
          rw [← ih1]
          exact hp
      · intro x hx
        simp only [List.mem_append, List.mem_singleton] at hx
        rcases hx with hx | hx
        · exact ih3 x hx
        · subst hx
          exact ⟨h1, h2⟩

theorem regTrail_dropLast (start : Path) (comps : List String) (p : Path)
    (h : p ∈ regTrail start comps.dropLast) : p ∈ regTrail start comps := by
  by_cases hne : comps = []
  · subst hne
    simpa using h
  · rw [← List.dropLast_append_getLast hne, regTrail_append]
    exact List.mem_append_left _ h

theorem Dir_rooted (pn : PathName) : (filepath.Dir pn).rooted = pn.rooted := by
  unfold filepath.Dir filepath.Clean
  simp only
  split
  · rename_i h
    simp only [Bool.and_eq_true, Bool.not_eq_eq_eq_not, Bool.not_true] at h
    exact h.1.symm
  · rfl

theorem Dir_places (start : Path) (pn : PathName) (hroot : pn.rooted = true → start = [])
    (p : Path) (h : p ∈ regTrail start (filepath.Dir pn).comps) :
    p ∈ regTrail start pn.comps := by
  unfold filepath.Dir filepath.Clean at h
  simp only at h
  split at h
  · simp [regTrail, isSpecial] at h
  · exact regTrail_dropLast start pn.comps p
      ((clean_inv pn.rooted start hroot pn.comps.dropLast).2.1 p h)

theorem MkdirAll_frame (w : World) (pn : PathName) (perm : Nat) (x : Path)
    (hs : NoSymlink w.fs w.link (regTrail (w.start pn) pn.comps))
    (h : ∀ q ∈ regTrail (w.start pn) pn.comps, x ≠ w.link q) :
    (os.MkdirAll w pn perm).2 x = w.fs x := by
  unfold os.MkdirAll
  split
  · rfl
  · exact mkdirAllWalk_frame w.link perm x pn.comps w.fs _ hs h

theorem MkdirAll_keeps (w : World) (pn : PathName) (perm : Nat) :
    Keeps w.fs (os.MkdirAll w pn perm).2 := by
  unfold os.MkdirAll
  split
  · exact Keeps.refl _
  · exact mkdirAllWalk_keeps _ _ _ _ _

theorem start_rooted (w : World) (pn : PathName) : pn.rooted = true → w.start pn = [] := by
  intro h
  simp [World.start, h]

theorem unzipLoop_frame (sys : Sys) (x : Path) (files : List ZipFile) :
    ∀ w : World, (∀ f ∈ files, NoSymlink w.fs w.link (entryPlaces sys w.cwd f)) →
      (∀ f ∈ files, ∀ q ∈ entryPlaces sys w.cwd f, x ≠ w.link q) →
      (unzipLoop sys w files).2.fs x = w.fs x := by
  induction files with
  | nil => intro w _ _; rfl
  | cons f rest ih =>
    intro w hs hp
    have hsf : NoSymlink w.fs w.link
        (regTrail (w.start (parsePath sys f.Name)) (parsePath sys f.Name).comps) := by
      have := hs f (by simp)
      simpa [entryPlaces, World.start] using this
    have hf : ∀ q ∈ regTrail (w.start (parsePath sys f.Name)) (parsePath sys f.Name).comps,
        x ≠ w.link q := by
      have := hp f (by simp)
      simpa [entryPlaces, World.start] using this
    have hrest : ∀ g ∈ rest, ∀ q ∈ entryPlaces sys w.cwd g, x ≠ w.link q :=
      fun g hg => hp g (by simp [hg])
    have hsrest : ∀ fs2 : FS, Keeps w.fs fs2 →
        ∀ g ∈ rest, NoSymlink fs2 w.link (entryPlaces sys w.cwd g) :=
      fun fs2 hk g hg => (hs g (by simp [hg])).keeps hk
    have hst : w.start (filepath.Dir (parsePath sys f.Name)) =
        w.start (parsePath sys f.Name) := by
      simp [World.start, Dir_rooted]
    have hsub : ∀ q ∈ regTrail (w.start (filepath.Dir (parsePath sys f.Name)))
        (filepath.Dir (parsePath sys f.Name)).comps,
        q ∈ regTrail (w.start (parsePath sys f.Name)) (parsePath sys f.Name).comps := by
      intro q hq
      rw [hst] at hq
      exact Dir_places _ _ (start_rooted w _) q hq
    unfold unzipLoop
    simp only
    split
    · rw [ih { w with fs := (os.MkdirAll w (parsePath sys f.Name) 0o777).2 }
        (hsrest _ (MkdirAll_keeps w _ _)) hrest]
      exact MkdirAll_frame w _ _ x hsf hf
    · have hmk := MkdirAll_frame w (filepath.Dir (parsePath sys f.Name)) 0o777 x
        (hsf.subset hsub) (fun q hq => hf q (hsub q hq))
      have hmkk := MkdirAll_keeps w (filepath.Dir (parsePath sys f.Name)) 0o777
      split
      · rename_i e fs1 heq
        rw [heq] at hmk
        exact hmk
      · rename_i fs1 heq
        rw [heq] at hmk hmkk
        simp only at hmk hmkk
        split
        · exact hmk
        · rename_i outFile fs2 hopen
          have hof := OpenFile_frame { w with fs := fs1 } (parsePath sys f.Name) f.Mode
            outFile fs2 (hsf.keeps hmkk) hopen
          obtain ⟨⟨q0, hq0, hout⟩, hoth, hkeep⟩ := hof
          have hne : x ≠ outFile := by
            rw [hout]
            exact hf q0 hq0
          have h2 : fs2 x = w.fs x := by
            rw [hoth x hne]
            exact hmk
          split
          · exact h2
          · rename_i data _
            have hnext := ih { w with fs := os.write fs2 outFile data }
              (hsrest _ ((hmkk.chain hkeep).chain (Keeps.write _ _ _))) hrest
            rw [hnext]
            simp only
            rw [write_other _ _ _ _ hne]
            exact h2
          · simp only
            rw [write_other _ _ _ _ hne]
            exact h2

theorem unzipLoop_same (sys : Sys) (files : List ZipFile) :
    ∀ w : World, (unzipLoop sys w files).2.cwd = w.cwd ∧
      (unzipLoop sys w files).2.link = w.link := by
  induction files with
  | nil => intro w; exact ⟨rfl, rfl⟩
  | cons f rest ih =>
    intro w
    unfold unzipLoop
    simp only
    split
    · exact ih _
    · split
      · exact ⟨rfl, rfl⟩
      · split
        · exact ⟨rfl, rfl⟩
        · split
          · exact ⟨rfl, rfl⟩
          · exact ih _
          · exact ⟨rfl, rfl⟩

theorem unzip_same (sys : Sys) (w : World) (file : String) :
    (GitHub.unzip sys w file).2.cwd = w.cwd ∧ (GitHub.unzip sys w file).2.link = w.link := by
  unfold GitHub.unzip
  simp only
  split
  · exact ⟨rfl, rfl⟩
  · rename_i files _
    have h2 := unzipLoop_same sys files (w.record (.call "unzip" [file]))
    split <;> rename_i heq <;> rw [heq] at h2 <;> exact h2

theorem zipOpenReader_record (sys : Sys) (w : World) (e : Event) (file : String) :
    zipOpenReader sys (w.record e) file = zipOpenReader sys w file := rfl

theorem parsePath_a_b (sys : Sys) :
    parsePath sys "a/b.txt" = { rooted := false, comps := ["a", "b.txt"] } := by
  by_cases h : sys.GOOS = "windows" <;> simp [parsePath, isSep, splitSep, h]

/-- C8 (as amended): when no place that a member's name leads through is a
symbolic link, `unzip` leaves every path alone that is neither the place of an
archive member or of a parent directory named in a member's name nor a hard
link of such a place: what is at such a path (existence, content, mode) is
the same afterwards, and the working directory is unchanged.  In particular,
when the archive holds only `a/b.txt`, nothing outside `a` in the working
directory is created or modified, unless it is a hard link of `a` or of
`a/b.txt`. -/
theorem unzip_frame (sys : Sys) (w : World) (file : String)
    (hsym : NoSymlink w.fs w.link (archivePlaces sys w file)) :
    (∀ p : Path, (∀ q ∈ archivePlaces sys w file, w.link p ≠ w.link q) →
      (GitHub.unzip sys w file).2.view p = w.view p) ∧
    (GitHub.unzip sys w file).2.cwd = w.cwd ∧
    (∀ f : ZipFile, zipOpenReader sys w file = .ok [f] → f.Name = "a/b.txt" →
      ∀ p : Path, ¬ (w.cwd ++ ["a"]) <+: p →
        w.link p ≠ w.link (w.cwd ++ ["a"]) →
        w.link p ≠ w.link (w.cwd ++ ["a", "b.txt"]) →
        (GitHub.unzip sys w file).2.view p = w.view p) := by
  have main : ∀ p : Path, (∀ q ∈ archivePlaces sys w file, w.link p ≠ w.link q) →
      (GitHub.unzip sys w file).2.view p = w.view p := by
    intro p hp
    unfold World.view
    rw [(unzip_same sys w file).2]
    unfold GitHub.unzip
    simp only [zipOpenReader_record]
    unfold archivePlaces at hp hsym
    cases hz : zipOpenReader sys w file with
    | error e => rfl
    | ok files =>
      rw [hz] at hp hsym
      simp only at hp hsym
      have hs2 : ∀ f ∈ files, NoSymlink (w.record (.call "unzip" [file])).fs
          (w.record (.call "unzip" [file])).link
          (entryPlaces sys (w.record (.call "unzip" [file])).cwd f) :=
        fun f hf => hsym.subset fun q hq => List.mem_flatMap.mpr ⟨f, hf, hq⟩
      have hp2 : ∀ f ∈ files, ∀ q ∈ entryPlaces sys (w.record (.call "unzip" [file])).cwd f,
          w.link p ≠ (w.record (.call "unzip" [file])).link q :=
        fun f hf q hq => hp q (List.mem_flatMap.mpr ⟨f, hf, hq⟩)
      have := unzipLoop_frame sys (w.link p) files (w.record (.call "unzip" [file])) hs2 hp2
      simp only
      split <;> rename_i heq <;> rw [heq] at this <;> exact this
  refine ⟨main, (unzip_same sys w file).1, ?_⟩
  intro f hz hname p hp h1 h2
  refine main p ?_
  unfold archivePlaces
  rw [hz]
  simp only [List.flatMap_cons, List.flatMap_nil, List.append_nil, entryPlaces, hname,
    parsePath_a_b]
  simp only [regTrail, isSpecial, lexStep]
  intro q hmem
  simp at hmem
  rcases hmem with h | h
  · rw [h]
    exact h1
  · rw [h]
    simpa using h2

/-- Witness of C8: unpacking the sample archive (only `a/b.txt`) in the
launcher directory leaves `other.txt` beside it as it was. -/
theorem unzip_frame_witness :
    (GitHub.unzip demo.sys (demo.world demo.zipFS) "launcher.zip").2.view
        ["home", "launcher", "other.txt"] =
      (demo.world demo.zipFS).view ["home", "launcher", "other.txt"] :=
  (unzip_frame demo.sys (demo.world demo.zipFS) "launcher.zip"
    (by unfold NoSymlink; decide)).2.2
    ⟨"a/b.txt", false, 0o644, .data "hello"⟩ rfl rfl ["home", "launcher", "other.txt"]
    (by decide) (by decide) (by decide)

/-- C8 (as stated) fails: when `a` in the working directory is a symbolic
link to `../other`, unpacking an archive that holds only `a/b.txt` creates
`other/b.txt`, a path outside `a` that is neither the name of a member nor a
parent directory of one. -/
theorem unzip_frame_symlink_counterexample :
    archivePlaces demo.sys (demo.world demo.symlinkFS) "launcher.zip" =
      [["home", "launcher", "a"], ["home", "launcher", "a", "b.txt"]] ∧
    ¬ (["home", "launcher", "a"] <+: ["home", "other", "b.txt"]) ∧
    (demo.world demo.symlinkFS).view ["home", "other", "b.txt"] = none ∧
    (GitHub.unzip demo.sys (demo.world demo.symlinkFS) "launcher.zip").1 = .ok () ∧
    (GitHub.unzip demo.sys (demo.world demo.symlinkFS) "launcher.zip").2.view
        ["home", "other", "b.txt"] = some (.file 0o644 "hello") := by
  decide

/-- With `a/b.txt` a hard link of `other.txt`, unpacking `a/b.txt` overwrites
the content seen at `other.txt`. -/
theorem unzip_hard_link_overwrites :
    demo.hardlinkWorld.view ["home", "launcher", "other.txt"] = some (.file 0o600 "keep") ∧
    (GitHub.unzip demo.sys demo.hardlinkWorld "launcher.zip").2.view
        ["home", "launcher", "other.txt"] = some (.file 0o600 "hello") := by
  decide

end core

namespace config

open core

theorem keysToTry_GitHub :
    keysToTry "GitHub" = ["GitHub", "github", "GITHUB", "gitHub"] := by decide

theorem keysToTry_access_token :
    keysToTry "access-token" =
      ["access-token", "access-token", "ACCESS-TOKEN", "access-token"] := by decide

theorem keysToTry_simnet :
    keysToTry "simnet-dir" = ["simnet-dir", "simnet-dir", "SIMNET-DIR", "simnet-dir"] := by
  decide

theorem keysToTry_testnet :
    keysToTry "testnet-dir" = ["testnet-dir", "testnet-dir", "TESTNET-DIR", "testnet-dir"] := by
  decide

theorem keysToTry_mainnet :
    keysToTry "mainnet-dir" = ["mainnet-dir", "mainnet-dir", "MAINNET-DIR", "mainnet-dir"] := by
  decide

theorem lookup_single (key name : String) (v : Toml) :
    List.lookup key [(name, v)] = if key = name then some v else none := by
  by_cases h : key = name
  · simp [List.lookup, h]
  · have hb : (key == name) = false := by simpa using h
    simp [List.lookup, h, hb]

theorem unmarshalConfig_access_token (s : String) :
    unmarshalConfig [("GitHub", .table [("access-token", .string s)])] =
      .ok { GitHub := { AccessToken := s }, SimnetDir := "", TestnetDir := "",
            MainnetDir := "" } := by
  have h1 : fieldValue [("GitHub", Toml.table [("access-token", .string s)])] "GitHub" =
      some (.table [("access-token", .string s)]) := by
    simp [fieldValue, keysToTry_GitHub, lookup_single]
  have h2 : fieldValue [("access-token", Toml.string s)] "access-token" =
      some (.string s) := by
    simp [fieldValue, keysToTry_access_token, lookup_single]
  have h3 : fieldValue [("GitHub", Toml.table [("access-token", .string s)])] "simnet-dir" =
      none := by
    simp [fieldValue, keysToTry_simnet, lookup_single]
  have h4 : fieldValue [("GitHub", Toml.table [("access-token", .string s)])] "testnet-dir" =
      none := by
    simp [fieldValue, keysToTry_testnet, lookup_single]
  have h5 : fieldValue [("GitHub", Toml.table [("access-token", .string s)])] "mainnet-dir" =
      none := by
    simp [fieldValue, keysToTry_mainnet, lookup_single]
  simp [unmarshalConfig, unmarshalGitHub, stringField, h1, h2, h3, h4, h5]

/-- C10: a document that holds only a `[GitHub]` table with
`access-token = s` parses without error into a `Config` whose
`GitHub.AccessToken` is `s` and whose `SimnetDir`, `TestnetDir` and
`MainnetDir` are empty. -/
theorem ParseConfig_access_token
    (load : String → Except GoError (List (String × Toml))) (reader : Body)
    (data s : String) (hread : reader.ReadAll = .ok data)
    (hdoc : load data = .ok [("GitHub", .table [("access-token", .string s)])]) :
    ParseConfig load reader =
      .ok { GitHub := { AccessToken := s }, SimnetDir := "", TestnetDir := "",
            MainnetDir := "" } := by
  unfold ParseConfig tomlUnmarshal
  rw [hread]
  simp only [hdoc, unmarshalConfig_access_token]

/-- Witness of C10: the document of `Test1`. -/
theorem ParseConfig_access_token_witness :
    ParseConfig test1Load ⟨test1Document, none⟩ =
      .ok { GitHub := { AccessToken := "abc123" }, SimnetDir := "", TestnetDir := "",
            MainnetDir := "" } :=
  ParseConfig_access_token test1Load ⟨test1Document, none⟩ test1Document "abc123" rfl rfl

end config
